import Mathlib

/-
Verification of the cilium service-manager design and the Azure interface
type helpers.

The Azure part is a shallow embedding of pkg/azure/types/types.go.

The service-manager part (registry, backend reference counting, the two
identifier allocators and the forwarding-table test double) is modelled
from the design document, since only the manager's test file is available:
every such definition carries a doc comment starting with
"Modelled from the spec:".
-/

namespace Azure

/-- Embedding of Go strings.Contains on character lists: chPre is prefix
test (Go internal comparison), chSub is the substring scan. -/
def chPre : List Char → List Char → Bool
  | [], _ => true
  | _ :: _, [] => false
  | a :: s, b :: t => a == b && chPre s t

/-- Substring occurrence test over character lists. -/
def chSub (sub : List Char) : List Char → Bool
  | [] => sub.isEmpty
  | c :: t => chPre sub (c :: t) || chSub sub t

/-- Embedding of Go strings.Contains(s, sub). -/
def strHasSub (s sub : String) : Bool := chSub sub.toList s.toList

/-- Embedding of Go strings.Split for a one-character separator, at
character level. Splitting the empty string yields one empty segment,
as in Go. -/
def splitOnChar (c : Char) : List Char → List (List Char)
  | [] => [[]]
  | x :: t =>
    match splitOnChar c t with
    | [] => [[]]
    | g :: gs => if x = c then [] :: g :: gs else (x :: g) :: gs

/-- The slash-separated segments of an interface ID, as produced by
strings.Split(id, "/"). -/
def azSegs (s : String) : List String :=
  (splitOnChar '/' s.toList).map (fun cs => ⟨cs⟩)

/-- The literal scanned for by AzureInterface.extractIDs. -/
def vmssToken : String := "virtualMachineScaleSets"

/-- Embedding of AzureAddress (types.go): an IP address assigned to an
AzureInterface. -/
structure AzureAddress where
  ip : String
  subnet : String
  state : String
deriving DecidableEq

/-- Embedding of AzureInterface (types.go). The three lowercase fields are
the package-private memoization fields set only by extractIDs. -/
structure AzureInterface where
  id : String
  name : String
  mac : String
  state : String
  addresses : List AzureAddress
  securityGroup : String
  vmssName : String
  vmName : String
  resourceGroup : String
deriving DecidableEq

/-- Embedding of (*AzureInterface).InterfaceID. -/
def AzureInterface.InterfaceID (a : AzureInterface) : String := a.id

/-- Embedding of (*AzureInterface).extractIDs: when the ID contains the
virtualMachineScaleSets token, fill resourceGroup / vmssName / vmName from
the slash-separated segments at indices 4, 8 and 10, each guarded by a
length check exactly as in the Go switch body. -/
def AzureInterface.extractIDs (a : AzureInterface) : AzureInterface :=
  if strHasSub a.id vmssToken then
    let segs := azSegs a.id
    let a1 := if 5 ≤ segs.length then { a with resourceGroup := segs.getD 4 "" } else a
    let a2 := if 9 ≤ segs.length then { a1 with vmssName := segs.getD 8 "" } else a1
    if 11 ≤ segs.length then { a2 with vmName := segs.getD 10 "" } else a2
  else a

/-- Embedding of (*AzureInterface).ResourceGroup: extract on demand when
the memoized field is empty. -/
def AzureInterface.ResourceGroup (a : AzureInterface) : String :=
  if a.resourceGroup = "" then a.extractIDs.resourceGroup else a.resourceGroup

/-- Embedding of (*AzureInterface).VMScaleSetName. -/
def AzureInterface.VMScaleSetName (a : AzureInterface) : String :=
  if a.vmssName = "" then a.extractIDs.vmssName else a.vmssName

/-- Embedding of (*AzureInterface).VMName. -/
def AzureInterface.VMName (a : AzureInterface) : String :=
  if a.vmName = "" then a.extractIDs.vmName else a.vmName

/-- Loop body of (*AzureInterface).ForeachAddress: call fn on each address
in order, stopping at the first error. A Go error is modelled as Option
(none is nil). -/
def foreachAddressGo (interfaceID : String) (id : String)
    (fn : String → String → String → String → AzureAddress → Option ε) :
    List AzureAddress → Option ε
  | [] => none
  | address :: rest =>
    match fn id interfaceID address.ip address.subnet address with
    | some e => some e
    | none => foreachAddressGo interfaceID id fn rest

/-- Embedding of (*AzureInterface).ForeachAddress. -/
def AzureInterface.ForeachAddress (a : AzureInterface) (id : String)
    (fn : String → String → String → String → AzureAddress → Option ε) : Option ε :=
  foreachAddressGo a.id id fn a.addresses

/-- A concrete scale-set interface ID used as test data. -/
def azVmssID : String :=
  "/subscriptions/sub1/resourceGroups/rg1/providers/Microsoft.Compute/virtualMachineScaleSets/vmss1/virtualMachines/vm3/networkInterfaces/ni0"

/-- A concrete AzureInterface with empty memoization fields, as produced by
deserialization. -/
def azDemo : AzureInterface :=
  { id := azVmssID, name := "eth0", mac := "00:11:22:33:44:55", state := "succeeded"
    addresses := [{ ip := "10.0.0.4", subnet := "subnet-1", state := "succeeded" },
                  { ip := "10.0.0.5", subnet := "subnet-1", state := "succeeded" }]
    securityGroup := "sg-1", vmssName := "", vmName := "", resourceGroup := "" }

/-- A concrete iterator used as test data: fails on a specific IP. -/
def azFnDemo : String → String → String → String → AzureAddress → Option Nat :=
  fun _ _ ip _ _ => if ip = "10.0.0.9" then some 7 else none

end Azure

namespace SvcMgr

/-- Modelled from the spec: an L4 protocol tag of a frontend or backend
address (protocol, IP, port). -/
inductive L4Proto
  | tcp
  | udp
deriving DecidableEq

/-- Modelled from the spec: a frontend or backend address, a
(protocol, IP address, port) tuple. -/
structure L3n4Addr where
  proto : L4Proto
  ip : String
  port : Nat
deriving DecidableEq

/-- Modelled from the spec: the enumerated service type, recorded but not
interpreted by the manager. -/
inductive SVCType
  | clusterIP
  | nodePort
  | loadBalancer
deriving DecidableEq

/-- Modelled from the spec: the error taxonomy of the manager. The
forwarding-table gateway is the in-memory test double, which never fails,
so only allocator exhaustion is ever produced. -/
inductive ErrKind
  | idExhausted
  | serviceSyncFailed
  | backendSyncFailed
deriving DecidableEq

/-- Modelled from the spec: identifier-allocator state. maxID bounds the
ID space [1, maxID]; allocated is the set of currently-issued IDs. -/
structure IDAllocator where
  maxID : Nat
  allocated : List Nat
deriving DecidableEq

/-- Search for the smallest free ID, scanning i, i+1, ... for fuel steps. -/
def findFree (allocated : List Nat) : Nat → Nat → Option Nat
  | 0, _ => none
  | fuel + 1, i => if allocated.contains i then findFree allocated fuel (i + 1) else some i

/-- Modelled from the spec: Allocate returns the smallest currently-unused
ID in [1, maxID] and records it, or fails with the exhausted kind. ID 0 is
reserved and never produced. -/
def IDAllocator.allocate (a : IDAllocator) : Except ErrKind (Nat × IDAllocator) :=
  match findFree a.allocated a.maxID 1 with
  | some id => .ok (id, { a with allocated := id :: a.allocated })
  | none => .error .idExhausted

/-- Modelled from the spec: Release marks an ID free for reuse; releasing
an already-free or out-of-range ID is a no-op and never crashes. -/
def IDAllocator.release (a : IDAllocator) (id : Nat) : IDAllocator :=
  if 1 ≤ id ∧ id ≤ a.maxID then
    { a with allocated := a.allocated.filter (fun j => decide (j ≠ id)) }
  else a

/-- Modelled from the spec: resetLocalID clears all allocation state. -/
def IDAllocator.resetLocalID (a : IDAllocator) : IDAllocator :=
  { a with allocated := [] }

/-- Modelled from the spec: a Backend record - numeric ID, unique endpoint
address, and reference count = number of services listing it. -/
structure Backend where
  id : Nat
  addr : L3n4Addr
  refCount : Nat
deriving DecidableEq

/-- Modelled from the spec: a Service record - numeric ID, frontend
address, type, and the attached (backend ID, backend address) pairs. -/
structure Svc where
  id : Nat
  frontend : L3n4Addr
  svcType : SVCType
  backends : List (Nat × L3n4Addr)
deriving DecidableEq

/-- Modelled from the spec: the in-memory forwarding-table test double
(LBMockMap): service ID to backend-ID list, and backend ID to address. -/
structure LBMockMap where
  serviceBackendsByID : List (Nat × List Nat)
  backendByID : List (Nat × L3n4Addr)
deriving DecidableEq

/-- Modelled from the spec: the whole shared-resource domain of the
Service manager - registry, the two allocators, and the gateway mock. -/
structure ServiceState where
  services : List Svc
  backends : List Backend
  svcAlloc : IDAllocator
  beAlloc : IDAllocator
  lbmap : LBMockMap
deriving DecidableEq

/-- Insert or replace the entry for a key in an association list,
preserving positions; a new key goes to the end. -/
def alistUpsert {β : Type} : List (Nat × β) → Nat → β → List (Nat × β)
  | [], k, v => [(k, v)]
  | (k0, v0) :: t, k, v => if k0 = k then (k, v) :: t else (k0, v0) :: alistUpsert t k v

/-- Look up a key in an association list. -/
def alistLookup {β : Type} : List (Nat × β) → Nat → Option β
  | [], _ => none
  | (k0, v0) :: t, k => if k0 = k then some v0 else alistLookup t k

/-- Modelled from the spec: look up the live Service for a frontend. -/
def findService (st : ServiceState) (fe : L3n4Addr) : Option Svc :=
  st.services.find? (fun s => decide (s.frontend = fe))

/-- Find the Backend record holding a given endpoint address. -/
def findBackendByAddr (bes : List Backend) (a : L3n4Addr) : Option Backend :=
  bes.find? (fun b => decide (b.addr = a))

/-- The reference count stored for an address, 0 when no record exists. -/
def refOf (bes : List Backend) (a : L3n4Addr) : Nat :=
  match findBackendByAddr bes a with
  | some b => b.refCount
  | none => 0

/-- Increment the reference count of the record holding an address. -/
def bumpRef (bes : List Backend) (a : L3n4Addr) : List Backend :=
  bes.map (fun b => if b.addr = a then { b with refCount := b.refCount + 1 } else b)

/-- Decrement the reference count of the record with a given ID. -/
def decRefById (bes : List Backend) (bid : Nat) : List Backend :=
  bes.map (fun b => if b.id = bid then { b with refCount := b.refCount - 1 } else b)

/-- Deduplication worker: drop addresses already seen, keeping first
occurrences. -/
def dedupAddrsGo (seen : List L3n4Addr) : List L3n4Addr → List L3n4Addr
  | [] => []
  | a :: t => if a ∈ seen then dedupAddrsGo seen t else a :: dedupAddrsGo (a :: seen) t

/-- Modelled from the spec: duplicate addresses within desiredBackends are
deduplicated before diffing (first occurrence kept). -/
def dedupAddrs (l : List L3n4Addr) : List L3n4Addr := dedupAddrsGo [] l

/-- The addresses currently attached to a service. -/
def svcAddrs (s : Svc) : List L3n4Addr := s.backends.map Prod.snd

/-- The number of services whose backend set contains an address. -/
def svcRefs (ss : List Svc) (a : L3n4Addr) : Nat :=
  ss.countP (fun s => decide (a ∈ svcAddrs s))

/-- The forwarding-table record of one service. -/
def svcEntry (s : Svc) : Nat × List Nat := (s.id, s.backends.map Prod.fst)

/-- The attachments a service keeps in an upsert diff: addresses still in
the desired set. -/
def keptOf (s : Svc) (desired : List L3n4Addr) : List (Nat × L3n4Addr) :=
  s.backends.filter (fun p => decide (p.2 ∈ desired))

/-- The attachments removed by an upsert diff: current minus desired. -/
def toRemoveOf (s : Svc) (desired : List L3n4Addr) : List (Nat × L3n4Addr) :=
  s.backends.filter (fun p => decide (p.2 ∉ desired))

/-- The addresses added by an upsert diff: desired minus current. -/
def toAddOf (s : Svc) (desired : List L3n4Addr) : List L3n4Addr :=
  desired.filter (fun a => decide (a ∉ svcAddrs s))

/-- Modelled from the spec, upsert step 5: for each added address reuse
the existing Backend (incrementing its reference count) or allocate a new
ID, create the record with count 1 and write it to the gateway. The
accumulator collects the (ID, address) attachments in order. -/
def addBackendsLoop : List Backend → IDAllocator → LBMockMap → List L3n4Addr →
    List (Nat × L3n4Addr) →
    Except ErrKind (List Backend × IDAllocator × LBMockMap × List (Nat × L3n4Addr))
  | bes, alloc, lbm, [], acc => .ok (bes, alloc, lbm, acc)
  | bes, alloc, lbm, a :: rest, acc =>
    match findBackendByAddr bes a with
    | some b => addBackendsLoop (bumpRef bes a) alloc lbm rest (acc ++ [(b.id, a)])
    | none =>
      match alloc.allocate with
      | .error e => .error e
      | .ok (bid, alloc1) =>
        addBackendsLoop (bes ++ [⟨bid, a, 1⟩]) alloc1
          { lbm with backendByID := alistUpsert lbm.backendByID bid a } rest
          (acc ++ [(bid, a)])

/-- Modelled from the spec, upsert step 6 and delete step 2: for each
detached (ID, address) pair decrement the reference count; when it reaches
zero delete the record from the gateway and release the ID. -/
def removeBackendsLoop : List Backend → IDAllocator → LBMockMap → List (Nat × L3n4Addr) →
    List Backend × IDAllocator × LBMockMap
  | bes, alloc, lbm, [] => (bes, alloc, lbm)
  | bes, alloc, lbm, p :: rest =>
    match bes.find? (fun b => decide (b.id = p.1)) with
    | none => removeBackendsLoop bes alloc lbm rest
    | some b =>
      if b.refCount ≤ 1 then
        removeBackendsLoop (bes.filter (fun x => decide (x.id ≠ p.1))) (alloc.release p.1)
          { lbm with backendByID := lbm.backendByID.filter (fun q => decide (q.1 ≠ p.1)) } rest
      else
        removeBackendsLoop (decRefById bes p.1) alloc lbm rest

/-- Replace (in place) the first service with a given ID. -/
def replaceSvc : List Svc → Nat → Svc → List Svc
  | [], _, _ => []
  | x :: t, sid, s => if x.id = sid then s :: t else x :: replaceSvc t sid s

/-- Modelled from the spec, upsert steps 4-7: compute the diff against the
service's current attachments, apply additions then removals, and issue
the full-replace write of the service's backend-ID list (issued even when
the desired set is empty). -/
def processBackends (st : ServiceState) (s : Svc) (desired : List L3n4Addr)
    (created : Bool) : Except ErrKind (Bool × Nat × ServiceState) :=
  match addBackendsLoop st.backends st.beAlloc st.lbmap (toAddOf s desired) [] with
  | .error e => .error e
  | .ok (bes1, alloc1, lbm1, added) =>
    match removeBackendsLoop bes1 alloc1 lbm1 (toRemoveOf s desired) with
    | (bes2, alloc2, lbm2) =>
      let newList := keptOf s desired ++ added
      let s2 : Svc := { s with backends := newList }
      .ok (created, s.id,
        { services := replaceSvc st.services s.id s2
          backends := bes2
          svcAlloc := st.svcAlloc
          beAlloc := alloc2
          lbmap := { backendByID := lbm2.backendByID
                     serviceBackendsByID :=
                       alistUpsert lbm2.serviceBackendsByID s.id (newList.map Prod.fst) } })

/-- Modelled from the spec: UpsertService. On an unknown frontend allocate
a Service ID and create the record (created = true), otherwise reuse the
live record (created = false, type re-recorded); then apply the backend
diff. Allocator exhaustion aborts the operation. -/
def upsertService (st : ServiceState) (fe : L3n4Addr) (desiredBackends : List L3n4Addr)
    (t : SVCType) : Except ErrKind (Bool × Nat × ServiceState) :=
  let desired := dedupAddrs desiredBackends
  match findService st fe with
  | some s => processBackends st { s with svcType := t } desired false
  | none =>
    match st.svcAlloc.allocate with
    | .error e => .error e
    | .ok (sid, alloc1) =>
      let s : Svc := { id := sid, frontend := fe, svcType := t, backends := [] }
      processBackends { st with services := st.services ++ [s], svcAlloc := alloc1 }
        s desired true

/-- Modelled from the spec: DeleteServiceByID. found = false on an unknown
ID with no other effect; otherwise detach and release all backends, delete
the service's forwarding-table record, release the Service ID and drop the
record. The gateway test double cannot fail, so the Go error result is
always nil and is omitted. -/
def deleteServiceByID (st : ServiceState) (sid : Nat) : Bool × ServiceState :=
  match st.services.find? (fun s => decide (s.id = sid)) with
  | none => (false, st)
  | some s =>
    match removeBackendsLoop st.backends st.beAlloc st.lbmap s.backends with
    | (bes2, beAlloc2, lbm2) =>
      (true,
       { services := st.services.filter (fun x => decide (x.id ≠ sid))
         backends := bes2
         svcAlloc := st.svcAlloc.release sid
         beAlloc := beAlloc2
         lbmap := { backendByID := lbm2.backendByID
                    serviceBackendsByID :=
                      lbm2.serviceBackendsByID.filter (fun q => decide (q.1 ≠ sid)) } })

/-- Modelled from the spec: a fresh allocator over the 16-bit ID space. -/
def emptyAllocator : IDAllocator := { maxID := 65535, allocated := [] }

/-- Modelled from the spec: the manager's state at construction. -/
def initState : ServiceState :=
  { services := [], backends := [], svcAlloc := emptyAllocator, beAlloc := emptyAllocator
    lbmap := { serviceBackendsByID := [], backendByID := [] } }

/-- A public operation of the manager. -/
inductive Op
  | upsert (fe : L3n4Addr) (desiredBackends : List L3n4Addr) (t : SVCType)
  | delete (sid : Nat)

/-- Apply one operation; a failed upsert (allocator exhaustion) leaves the
state unchanged. -/
def applyOp (st : ServiceState) : Op → ServiceState
  | .upsert fe bes t =>
    match upsertService st fe bes t with
    | .ok r => r.2.2
    | .error _ => st
  | .delete sid => (deleteServiceByID st sid).2

/-- The state reached by a finite sequence of operations from empty. -/
def runOps (ops : List Op) : ServiceState :=
  ops.foldl applyOp initState

/-- Test frontend 1.1.1.1:80/TCP. -/
def feA : L3n4Addr := { proto := .tcp, ip := "1.1.1.1", port := 80 }

/-- Test frontend 1.1.1.2:80/TCP. -/
def feB : L3n4Addr := { proto := .tcp, ip := "1.1.1.2", port := 80 }

/-- Test frontend 1.1.1.3:80/TCP. -/
def feC : L3n4Addr := { proto := .tcp, ip := "1.1.1.3", port := 80 }

/-- Test backend address 10.0.0.1:8080/TCP. -/
def baA : L3n4Addr := { proto := .tcp, ip := "10.0.0.1", port := 8080 }

/-- Test backend address 10.0.0.2:8080/TCP. -/
def baB : L3n4Addr := { proto := .tcp, ip := "10.0.0.2", port := 8080 }

/-- One upsert creating a service with two backends. -/
def demoOps : List Op := [.upsert feA [baA, baB] .nodePort]

/-- The state after demoOps. -/
def demoSt : ServiceState := runOps demoOps

/-- Three services all listing the same backend address. -/
def demoShareOps : List Op :=
  [.upsert feA [baA] .nodePort, .upsert feB [baA] .nodePort, .upsert feC [baA] .nodePort]

/-- The state after demoShareOps. -/
def demoShareSt : ServiceState := runOps demoShareOps

/-- The first backend record created by demoOps. -/
def demoBe : Backend := { id := 1, addr := baA, refCount := 1 }

/-- Two upserts for distinct frontends sharing one backend address. -/
def demo2Ops : List Op := [.upsert feA [baA] .nodePort, .upsert feB [baA] .nodePort]

/-- The first service created by demo2Ops. -/
def demoSvcX : Svc := { id := 1, frontend := feA, svcType := .nodePort, backends := [(1, baA)] }

/-- The second service created by demo2Ops. -/
def demoSvcY : Svc := { id := 2, frontend := feB, svcType := .nodePort, backends := [(1, baA)] }

/-- Mid-loop bookkeeping shared by the backend registry, the backend
allocator and the gateway backend table. -/
structure LoopInv (bes : List Backend) (alloc : IDAllocator) (lbm : LBMockMap) : Prop where
  idsN : (bes.map Backend.id).Nodup
  addrsN : (bes.map Backend.addr).Nodup
  idsAl : ∀ b ∈ bes, b.id ∈ alloc.allocated
  sync : lbm.backendByID = bes.map (fun b => (b.id, b.addr))
  pos : ∀ b ∈ bes, 0 < b.refCount

/-- The registry invariant maintained by every reachable state: unique
IDs and frontends, unique backend addresses, reference counts equal to
the number of listing services, gateway tables mirroring the registry,
issued IDs recorded in the allocators, and attachments referencing live
backend records. -/
structure Inv (st : ServiceState) : Prop where
  svcIds : (st.services.map Svc.id).Nodup
  svcFes : (st.services.map Svc.frontend).Nodup
  beIds : (st.backends.map Backend.id).Nodup
  beAddrs : (st.backends.map Backend.addr).Nodup
  refs : ∀ a, refOf st.backends a = svcRefs st.services a
  pos : ∀ b ∈ st.backends, 0 < b.refCount
  lbBe : st.lbmap.backendByID = st.backends.map (fun b => (b.id, b.addr))
  lbSvc : st.lbmap.serviceBackendsByID = st.services.map svcEntry
  svcAl : ∀ s ∈ st.services, s.id ∈ st.svcAlloc.allocated
  beAl : ∀ b ∈ st.backends, b.id ∈ st.beAlloc.allocated
  attach : ∀ s ∈ st.services, ∀ p ∈ s.backends, ∃ b ∈ st.backends, b.id = p.1 ∧ b.addr = p.2
  attachN : ∀ s ∈ st.services, (svcAddrs s).Nodup

end SvcMgr

namespace Azure

theorem extractIDs_of_no_token {a : AzureInterface} (h : strHasSub a.id vmssToken = false) :
    a.extractIDs = a := by
  unfold AzureInterface.extractIDs
  simp [h]

theorem extractIDs_fields {a : AzureInterface} (h : strHasSub a.id vmssToken = true) :
    a.extractIDs.resourceGroup =
      (if 5 ≤ (azSegs a.id).length then (azSegs a.id).getD 4 "" else a.resourceGroup) ∧
    a.extractIDs.vmssName =
      (if 9 ≤ (azSegs a.id).length then (azSegs a.id).getD 8 "" else a.vmssName) ∧
    a.extractIDs.vmName =
      (if 11 ≤ (azSegs a.id).length then (azSegs a.id).getD 10 "" else a.vmName) := by
  unfold AzureInterface.extractIDs
  by_cases h5 : 5 ≤ (azSegs a.id).length <;>
    by_cases h9 : 9 ≤ (azSegs a.id).length <;>
      by_cases h11 : 11 ≤ (azSegs a.id).length <;>
        simp [h, h5, h9, h11]

/-- C9: for an AzureInterface whose memoization fields are empty (the only
values constructible outside the package), the three getters return the
empty string when the ID lacks the virtualMachineScaleSets token, and
otherwise return the slash-separated segments at indices 4, 8 and 10 when
the ID has enough segments and the empty string otherwise. -/
theorem c9_extract_ids (a : AzureInterface)
    (h1 : a.resourceGroup = "") (h2 : a.vmssName = "") (h3 : a.vmName = "") :
    (strHasSub a.id vmssToken = false →
        a.ResourceGroup = "" ∧ a.VMScaleSetName = "" ∧ a.VMName = "") ∧
    (strHasSub a.id vmssToken = true →
        a.ResourceGroup =
          (if 5 ≤ (azSegs a.id).length then (azSegs a.id).getD 4 "" else "") ∧
        a.VMScaleSetName =
          (if 9 ≤ (azSegs a.id).length then (azSegs a.id).getD 8 "" else "") ∧
        a.VMName =
          (if 11 ≤ (azSegs a.id).length then (azSegs a.id).getD 10 "" else "")) := by
  constructor
  · intro h
    unfold AzureInterface.ResourceGroup AzureInterface.VMScaleSetName AzureInterface.VMName
    simp [h1, h2, h3, extractIDs_of_no_token h]
  · intro h
    have hf := extractIDs_fields (a := a) h
    unfold AzureInterface.ResourceGroup AzureInterface.VMScaleSetName AzureInterface.VMName
    rw [if_pos h1, if_pos h2, if_pos h3, hf.1, hf.2.1, hf.2.2, h1, h2, h3]
    exact ⟨rfl, rfl, rfl⟩

theorem c9_extract_ids_witness :
    azDemo.ResourceGroup =
      (if 5 ≤ (azSegs azDemo.id).length then (azSegs azDemo.id).getD 4 "" else "") ∧
    azDemo.VMScaleSetName =
      (if 9 ≤ (azSegs azDemo.id).length then (azSegs azDemo.id).getD 8 "" else "") ∧
    azDemo.VMName =
      (if 11 ≤ (azSegs azDemo.id).length then (azSegs azDemo.id).getD 10 "" else "") :=
  (c9_extract_ids azDemo rfl rfl rfl).2 (by decide)

theorem foreachAddressGo_eq_none {ε : Type} (iid id : String)
    (fn : String → String → String → String → AzureAddress → Option ε)
    (l : List AzureAddress) :
    foreachAddressGo iid id fn l = none ↔
      ∀ ad ∈ l, fn id iid ad.ip ad.subnet ad = none := by
  induction l with
  | nil => simp [foreachAddressGo]
  | cons x t ih =>
    unfold foreachAddressGo
    cases h : fn id iid x.ip x.subnet x with
    | some e => simp [h]
    | none => simpa [h] using ih

theorem foreachAddressGo_eq_some {ε : Type} (iid id : String)
    (fn : String → String → String → String → AzureAddress → Option ε)
    (l : List AzureAddress) (e : ε) (h : foreachAddressGo iid id fn l = some e) :
    ∃ l1 x l2, l = l1 ++ x :: l2 ∧
      (∀ y ∈ l1, fn id iid y.ip y.subnet y = none) ∧
      fn id iid x.ip x.subnet x = some e := by
  induction l with
  | nil => simp [foreachAddressGo] at h
  | cons x t ih =>
    unfold foreachAddressGo at h
    cases hx : fn id iid x.ip x.subnet x with
    | some e0 =>
      rw [hx] at h
      exact ⟨[], x, t, by simpa using h ▸ hx⟩
    | none =>
      rw [hx] at h
      obtain ⟨l1, y, l2, rfl, hl1, hy⟩ := ih h
      exact ⟨x :: l1, y, l2, rfl, by simpa [hx] using hl1, hy⟩

/-- C10: ForeachAddress applies fn to the addresses in list order, stops
at the first call returning an error and returns it; it returns nil iff
fn returns nil for every address, and in particular on an empty list. -/
theorem c10_foreach_address {ε : Type} (a : AzureInterface) (id : String)
    (fn : String → String → String → String → AzureAddress → Option ε) :
    (a.ForeachAddress id fn = none ↔
        ∀ ad ∈ a.addresses, fn id a.id ad.ip ad.subnet ad = none) ∧
    (∀ e, a.ForeachAddress id fn = some e →
        ∃ l1 x l2, a.addresses = l1 ++ x :: l2 ∧
          (∀ y ∈ l1, fn id a.id y.ip y.subnet y = none) ∧
          fn id a.id x.ip x.subnet x = some e) ∧
    (a.addresses = [] → a.ForeachAddress id fn = none) := by
  refine ⟨foreachAddressGo_eq_none a.id id fn a.addresses,
    fun e he => foreachAddressGo_eq_some a.id id fn a.addresses e he, fun h => ?_⟩
  unfold AzureInterface.ForeachAddress
  rw [h]
  rfl

theorem c10_foreach_address_witness :
    azDemo.ForeachAddress "node1" azFnDemo = none :=
  (c10_foreach_address azDemo "node1" azFnDemo).1.mpr (by decide)

end Azure

namespace SvcMgr

theorem contains_iff (l : List Nat) (i : Nat) : l.contains i = true ↔ i ∈ l := by
  simp [List.contains, List.elem_iff]

theorem findFree_some (allocated : List Nat) :
    ∀ fuel i id, findFree allocated fuel i = some id →
      i ≤ id ∧ id < i + fuel ∧ id ∉ allocated ∧ ∀ j, i ≤ j → j < id → j ∈ allocated := by
  intro fuel
  induction fuel with
  | zero => intro i id h; simp [findFree] at h
  | succ n ih =>
    intro i id h
    unfold findFree at h
    by_cases hc : allocated.contains i = true
    · rw [if_pos hc] at h
      obtain ⟨h1, h2, h3, h4⟩ := ih (i + 1) id h
      refine ⟨by omega, by omega, h3, fun j hj1 hj2 => ?_⟩
      rcases Nat.eq_or_lt_of_le hj1 with rfl | hlt
      · exact (contains_iff allocated _).mp hc
      · exact h4 j hlt hj2
    · rw [if_neg hc] at h
      injection h with h0
      subst h0
      refine ⟨Nat.le_refl _, by omega, fun hm => hc ((contains_iff allocated i).mpr hm),
        fun j hj1 hj2 => by omega⟩

theorem findFree_none (allocated : List Nat) :
    ∀ fuel i, findFree allocated fuel i = none ↔ ∀ j, i ≤ j → j < i + fuel → j ∈ allocated := by
  intro fuel
  induction fuel with
  | zero => intro i; simp [findFree]; omega
  | succ n ih =>
    intro i
    unfold findFree
    by_cases hc : allocated.contains i = true
    · rw [if_pos hc, ih (i + 1)]
      constructor
      · intro h j hj1 hj2
        rcases Nat.eq_or_lt_of_le hj1 with rfl | hlt
        · exact (contains_iff allocated _).mp hc
        · exact h j hlt (by omega)
      · intro h j hj1 hj2
        exact h j (by omega) (by omega)
    · rw [if_neg hc]
      simp only [reduceCtorEq, false_iff, not_forall]
      refine ⟨i, Nat.le_refl _, by omega, fun hm => hc ((contains_iff allocated i).mpr hm)⟩

/-- C6: Allocate returns the smallest ID in [1, maxID] not currently
allocated (in particular never 0), records it, and fails with the
exhausted kind exactly when every ID in [1, maxID] is allocated. -/
theorem c6_allocate (a : IDAllocator) :
    (∀ id a1, a.allocate = .ok (id, a1) →
        id ≠ 0 ∧ 1 ≤ id ∧ id ≤ a.maxID ∧ id ∉ a.allocated ∧
        (∀ j, 1 ≤ j → j < id → j ∈ a.allocated) ∧
        a1 = { a with allocated := id :: a.allocated }) ∧
    (a.allocate = .error .idExhausted ↔ ∀ j, 1 ≤ j → j ≤ a.maxID → j ∈ a.allocated) ∧
    ((∃ id a1, a.allocate = .ok (id, a1)) ∨ a.allocate = .error .idExhausted) := by
  refine ⟨fun id a1 h => ?_, ?_, ?_⟩
  · unfold IDAllocator.allocate at h
    cases hf : findFree a.allocated a.maxID 1 with
    | none => rw [hf] at h; cases h
    | some v =>
      rw [hf] at h
      cases h
      obtain ⟨h1, h2, h3, h4⟩ := findFree_some a.allocated a.maxID 1 _ hf
      exact ⟨by omega, h1, by omega, h3, h4, rfl⟩
  · unfold IDAllocator.allocate
    cases hf : findFree a.allocated a.maxID 1 with
    | none =>
      simp only [true_iff]
      intro j hj1 hj2
      exact (findFree_none a.allocated a.maxID 1).mp hf j hj1 (by omega)
    | some v =>
      simp only [reduceCtorEq, false_iff, not_forall]
      obtain ⟨h1, h2, h3, _⟩ := findFree_some a.allocated a.maxID 1 v hf
      exact ⟨v, h1, by omega, h3⟩
  · unfold IDAllocator.allocate
    cases hf : findFree a.allocated a.maxID 1 with
    | none => exact Or.inr rfl
    | some v => exact Or.inl ⟨v, _, rfl⟩

theorem c6_allocate_witness :
    (2 ≠ 0 ∧ 1 ≤ 2 ∧ 2 ≤ 3 ∧ 2 ∉ [1] ∧
      (∀ j, 1 ≤ j → j < 2 → j ∈ [1]) ∧
      (⟨3, [2, 1]⟩ : IDAllocator) = { maxID := 3, allocated := 2 :: [1] }) :=
  (c6_allocate ⟨3, [1]⟩).1 2 ⟨3, [2, 1]⟩ (by rfl)

/-- C8: Release of an already-free or out-of-range ID leaves the allocator
unchanged (it is total, hence never crashes); Release of an in-range ID
removes exactly that ID from the allocated set, freeing it for reuse. -/
theorem c8_release (a : IDAllocator) (id : Nat) :
    (id ∉ a.allocated ∨ id = 0 ∨ a.maxID < id → a.release id = a) ∧
    (1 ≤ id → id ≤ a.maxID →
        id ∉ (a.release id).allocated ∧
        ∀ j, j ≠ id → (j ∈ (a.release id).allocated ↔ j ∈ a.allocated)) := by
  constructor
  · intro h
    unfold IDAllocator.release
    rcases h with h | h | h
    · by_cases hr : 1 ≤ id ∧ id ≤ a.maxID
      · rw [if_pos hr]
        have : a.allocated.filter (fun j => decide (j ≠ id)) = a.allocated := by
          rw [List.filter_eq_self]
          intro j hj
          simp only [decide_eq_true_eq]
          intro hji
          exact h (hji ▸ hj)
        rw [this]
      · rw [if_neg hr]
    · rw [if_neg (by omega)]
    · rw [if_neg (by omega)]
  · intro h1 h2
    unfold IDAllocator.release
    rw [if_pos ⟨h1, h2⟩]
    constructor
    · simp [List.mem_filter]
    · intro j hj
      simp [List.mem_filter, hj]

theorem c8_release_witness :
    ((⟨3, [2, 1]⟩ : IDAllocator).release 5 = ⟨3, [2, 1]⟩) ∧
    (2 ∉ ((⟨3, [2, 1]⟩ : IDAllocator).release 2).allocated) :=
  ⟨(c8_release ⟨3, [2, 1]⟩ 5).1 (Or.inr (Or.inr (by decide))),
   ((c8_release ⟨3, [2, 1]⟩ 2).2 (by decide) (by decide)).1⟩

end SvcMgr

namespace SvcMgr

theorem find_decomp {α : Type} (p : α → Bool) (l : List α) (x : α)
    (h : l.find? p = some x) :
    ∃ l1 l2, l = l1 ++ x :: l2 ∧ ∀ y ∈ l1, p y = false := by
  induction l with
  | nil => simp at h
  | cons a t ih =>
    by_cases ha : p a = true
    · rw [List.find?_cons_of_pos _ ha] at h
      cases h
      exact ⟨[], t, rfl, by simp⟩
    · rw [List.find?_cons_of_neg _ (by simpa using ha)] at h
      obtain ⟨l1, l2, rfl, hl1⟩ := ih h
      refine ⟨a :: l1, l2, rfl, fun y hy => ?_⟩
      rcases List.mem_cons.mp hy with rfl | hy
      · simpa using ha
      · exact hl1 y hy

theorem find_append_none {α : Type} (p : α → Bool) (l1 l2 : List α)
    (h : ∀ x ∈ l1, p x = false) :
    (l1 ++ l2).find? p = l2.find? p := by
  induction l1 with
  | nil => rfl
  | cons a t ih =>
    have ha := h a (by simp)
    rw [List.cons_append, List.find?_cons_of_neg _ (by simp [ha]), ih]
    intro x hx
    exact h x (by simp [hx])

theorem find_filter_eq {α : Type} (p q : α → Bool) (l : List α)
    (h : ∀ y ∈ l, q y = false → p y = false) :
    (l.filter q).find? p = l.find? p := by
  induction l with
  | nil => rfl
  | cons a t ih =>
    by_cases hq : q a = true
    · rw [List.filter_cons_of_pos hq]
      by_cases hp : p a = true
      · rw [List.find?_cons_of_pos _ hp, List.find?_cons_of_pos _ hp]
      · rw [List.find?_cons_of_neg _ (by simpa using hp),
          List.find?_cons_of_neg _ (by simpa using hp)]
        exact ih (fun y hy => h y (by simp [hy]))
    · have hq0 : q a = false := by simpa using hq
      have hp0 : p a = false := h a (by simp) hq0
      rw [List.filter_cons_of_neg (by simp [hq0]), List.find?_cons_of_neg _ (by simp [hp0])]
      exact ih (fun y hy => h y (by simp [hy]))

theorem nodup_map_mid {α β : Type} (f : α → β) (l1 l2 : List α) (x : α)
    (h : ((l1 ++ x :: l2).map f).Nodup) :
    (∀ y ∈ l1, f y ≠ f x) ∧ (∀ y ∈ l2, f y ≠ f x) := by
  rw [List.map_append, List.map_cons] at h
  rw [List.nodup_middle] at h
  rw [List.nodup_cons] at h
  constructor
  · intro y hy he
    exact h.1 (by rw [← he]; exact List.mem_append_left _ (List.mem_map_of_mem f hy))
  · intro y hy he
    exact h.1 (by rw [← he]; exact List.mem_append_right _ (List.mem_map_of_mem f hy))

theorem find_self {α β : Type} [DecidableEq β] (f : α → β) (l : List α) (b : α)
    (hn : (l.map f).Nodup) (hb : b ∈ l) :
    l.find? (fun x => decide (f x = f b)) = some b := by
  induction l with
  | nil => simp at hb
  | cons a t ih =>
    rcases List.mem_cons.mp hb with rfl | hb
    · rw [List.find?_cons_of_pos _ (by simp)]
    · rw [List.map_cons, List.nodup_cons] at hn
      have hne : f a ≠ f b := by
        intro he
        exact hn.1 (he ▸ List.mem_map_of_mem f hb)
      rw [List.find?_cons_of_neg _ (by simpa using hne)]
      exact ih hn.2 hb

theorem alistUpsert_append {β : Type} (l : List (Nat × β)) (k : Nat) (v : β)
    (h : ∀ q ∈ l, q.1 ≠ k) :
    alistUpsert l k v = l ++ [(k, v)] := by
  induction l with
  | nil => rfl
  | cons a t ih =>
    have ha := h a (by simp)
    unfold alistUpsert
    rw [if_neg ha, ih (fun q hq => h q (by simp [hq]))]
    rfl

theorem alistUpsert_replace {β : Type} (l1 l2 : List (Nat × β)) (k : Nat) (w v : β)
    (h : ∀ q ∈ l1, q.1 ≠ k) :
    alistUpsert (l1 ++ (k, w) :: l2) k v = l1 ++ (k, v) :: l2 := by
  induction l1 with
  | nil => simp [alistUpsert]
  | cons a t ih =>
    have ha := h a (by simp)
    obtain ⟨a1, a2⟩ := a
    rw [List.cons_append]
    unfold alistUpsert
    rw [if_neg ha, ih (fun q hq => h q (by simp [hq]))]
    rfl

theorem alistLookup_upsert_self {β : Type} (l : List (Nat × β)) (k : Nat) (v : β) :
    alistLookup (alistUpsert l k v) k = some v := by
  induction l with
  | nil => simp [alistUpsert, alistLookup]
  | cons a t ih =>
    obtain ⟨a1, a2⟩ := a
    by_cases ha : a1 = k
    · subst ha
      simp [alistUpsert, alistLookup]
    · unfold alistUpsert
      rw [if_neg ha]
      unfold alistLookup
      rw [if_neg ha]
      exact ih

theorem alistLookup_mid {β : Type} (l1 l2 : List (Nat × β)) (k : Nat) (v : β)
    (h : ∀ q ∈ l1, q.1 ≠ k) :
    alistLookup (l1 ++ (k, v) :: l2) k = some v := by
  induction l1 with
  | nil => simp [alistLookup]
  | cons a t ih =>
    have ha := h a (by simp)
    obtain ⟨a1, a2⟩ := a
    rw [List.cons_append]
    unfold alistLookup
    rw [if_neg ha]
    exact ih (fun q hq => h q (by simp [hq]))

theorem replaceSvc_mid (l1 l2 : List Svc) (s0 s : Svc) (sid : Nat)
    (h : ∀ x ∈ l1, x.id ≠ sid) (h0 : s0.id = sid) :
    replaceSvc (l1 ++ s0 :: l2) sid s = l1 ++ s :: l2 := by
  induction l1 with
  | nil => simp [replaceSvc, h0]
  | cons a t ih =>
    have ha := h a (by simp)
    rw [List.cons_append]
    unfold replaceSvc
    rw [if_neg ha, ih (fun x hx => h x (by simp [hx]))]
    rfl

theorem filter_key_mid {α : Type} (f : α → Nat) (l1 l2 : List α) (x : α) (k : Nat)
    (h1 : ∀ y ∈ l1, f y ≠ k) (h2 : ∀ y ∈ l2, f y ≠ k) (hx : f x = k) :
    (l1 ++ x :: l2).filter (fun y => decide (f y ≠ k)) = l1 ++ l2 := by
  rw [List.filter_append, List.filter_cons_of_neg (by simp [hx])]
  rw [List.filter_eq_self.mpr (fun y hy => by simpa using h1 y hy),
    List.filter_eq_self.mpr (fun y hy => by simpa using h2 y hy)]

theorem countP_two_le {α : Type} (p : α → Bool) (l : List α) (x y : α)
    (hx : x ∈ l) (hy : y ∈ l) (hxy : x ≠ y) (hpx : p x = true) (hpy : p y = true) :
    2 ≤ l.countP p := by
  induction l with
  | nil => simp at hx
  | cons a t ih =>
    rw [List.countP_cons]
    rcases List.mem_cons.mp hx with rfl | hx1
    · have hyt : y ∈ t := by
        rcases List.mem_cons.mp hy with rfl | hy1
        · exact absurd rfl hxy
        · exact hy1
      have : 0 < t.countP p := List.countP_pos_iff.mpr ⟨y, hyt, hpy⟩
      rw [if_pos hpx]
      omega
    · rcases List.mem_cons.mp hy with rfl | hy1
      · have : 0 < t.countP p := List.countP_pos_iff.mpr ⟨x, hx1, hpx⟩
        rw [if_pos hpy]
        omega
      · have := ih hx1 hy1
        split <;> omega

theorem mem_dedupAddrsGo (l : List L3n4Addr) :
    ∀ seen x, x ∈ dedupAddrsGo seen l ↔ x ∈ l ∧ x ∉ seen := by
  induction l with
  | nil => intro seen x; simp [dedupAddrsGo]
  | cons a t ih =>
    intro seen x
    unfold dedupAddrsGo
    by_cases ha : a ∈ seen
    · rw [if_pos ha, ih seen x]
      constructor
      · exact fun h => ⟨by simp [h.1], h.2⟩
      · rintro ⟨h1, h2⟩
        rcases List.mem_cons.mp h1 with rfl | h1
        · exact absurd ha h2
        · exact ⟨h1, h2⟩
    · rw [if_neg ha]
      constructor
      · intro h
        rcases List.mem_cons.mp h with rfl | h
        · exact ⟨by simp, ha⟩
        · have := (ih (a :: seen) x).mp h
          exact ⟨by simp [this.1], fun hx => this.2 (by simp [hx])⟩
      · rintro ⟨h1, h2⟩
        by_cases hxa : x = a
        · subst hxa
          exact List.mem_cons_self _ _
        · rcases List.mem_cons.mp h1 with rfl | h1
          · exact absurd rfl hxa
          · exact List.mem_cons_of_mem _ ((ih (a :: seen) x).mpr ⟨h1, by simp [hxa, h2]⟩)

theorem nodup_dedupAddrsGo (l : List L3n4Addr) :
    ∀ seen, (dedupAddrsGo seen l).Nodup := by
  induction l with
  | nil => intro seen; simp [dedupAddrsGo]
  | cons a t ih =>
    intro seen
    unfold dedupAddrsGo
    by_cases ha : a ∈ seen
    · rw [if_pos ha]; exact ih seen
    · rw [if_neg ha, List.nodup_cons]
      refine ⟨fun hmem => ?_, ih (a :: seen)⟩
      exact ((mem_dedupAddrsGo t (a :: seen) a).mp hmem).2 (by simp)

theorem mem_dedupAddrs (l : List L3n4Addr) (x : L3n4Addr) :
    x ∈ dedupAddrs l ↔ x ∈ l := by
  unfold dedupAddrs
  rw [mem_dedupAddrsGo]
  simp

theorem nodup_dedupAddrs (l : List L3n4Addr) : (dedupAddrs l).Nodup :=
  nodup_dedupAddrsGo l []

end SvcMgr

namespace SvcMgr

theorem map_comp_eq {α β : Type} (g : α → α) (f : α → β) (h : ∀ x, f (g x) = f x)
    (l : List α) : (l.map g).map f = l.map f := by
  rw [List.map_map]
  exact List.map_congr_left (fun a _ => h a)

theorem find_congr {α : Type} (p q : α → Bool) (l : List α) (h : ∀ x ∈ l, p x = q x) :
    l.find? p = l.find? q := by
  induction l with
  | nil => rfl
  | cons a t ih =>
    have ha := h a (by simp)
    by_cases hp : p a = true
    · rw [List.find?_cons_of_pos _ hp, List.find?_cons_of_pos _ (ha ▸ hp)]
    · rw [List.find?_cons_of_neg _ (by simpa using hp),
        List.find?_cons_of_neg _ (by simp [← ha]; simpa using hp)]
      exact ih (fun x hx => h x (by simp [hx]))

theorem bump_preserves (a : L3n4Addr) (b : Backend) :
    (if b.addr = a then { b with refCount := b.refCount + 1 } else b).id = b.id ∧
    (if b.addr = a then { b with refCount := b.refCount + 1 } else b).addr = b.addr := by
  split <;> simp

theorem dec_preserves (bid : Nat) (b : Backend) :
    (if b.id = bid then { b with refCount := b.refCount - 1 } else b).id = b.id ∧
    (if b.id = bid then { b with refCount := b.refCount - 1 } else b).addr = b.addr := by
  split <;> simp

theorem bumpRef_map_id (bes : List Backend) (a : L3n4Addr) :
    (bumpRef bes a).map Backend.id = bes.map Backend.id :=
  map_comp_eq _ _ (fun b => (bump_preserves a b).1) bes

theorem bumpRef_map_addr (bes : List Backend) (a : L3n4Addr) :
    (bumpRef bes a).map Backend.addr = bes.map Backend.addr :=
  map_comp_eq _ _ (fun b => (bump_preserves a b).2) bes

theorem bumpRef_map_pair (bes : List Backend) (a : L3n4Addr) :
    (bumpRef bes a).map (fun b => (b.id, b.addr)) = bes.map (fun b => (b.id, b.addr)) :=
  map_comp_eq _ _ (fun b => by
    rw [Prod.mk.injEq]
    exact ⟨(bump_preserves a b).1, (bump_preserves a b).2⟩) bes

theorem decRef_map_id (bes : List Backend) (bid : Nat) :
    (decRefById bes bid).map Backend.id = bes.map Backend.id :=
  map_comp_eq _ _ (fun b => (dec_preserves bid b).1) bes

theorem decRef_map_addr (bes : List Backend) (bid : Nat) :
    (decRefById bes bid).map Backend.addr = bes.map Backend.addr :=
  map_comp_eq _ _ (fun b => (dec_preserves bid b).2) bes

theorem decRef_map_pair (bes : List Backend) (bid : Nat) :
    (decRefById bes bid).map (fun b => (b.id, b.addr)) = bes.map (fun b => (b.id, b.addr)) :=
  map_comp_eq _ _ (fun b => by
    rw [Prod.mk.injEq]
    exact ⟨(dec_preserves bid b).1, (dec_preserves bid b).2⟩) bes

theorem find_bumpRef (bes : List Backend) (a x : L3n4Addr) :
    findBackendByAddr (bumpRef bes a) x =
      (findBackendByAddr bes x).map
        (fun b => if b.addr = a then { b with refCount := b.refCount + 1 } else b) := by
  unfold findBackendByAddr bumpRef
  rw [List.find?_map]
  congr 1
  refine find_congr _ _ bes (fun b _ => ?_)
  simp only [Function.comp_apply]
  congr 1
  rw [(bump_preserves a b).2]

theorem find_decRef (bes : List Backend) (bid : Nat) (x : L3n4Addr) :
    findBackendByAddr (decRefById bes bid) x =
      (findBackendByAddr bes x).map
        (fun b => if b.id = bid then { b with refCount := b.refCount - 1 } else b) := by
  unfold findBackendByAddr decRefById
  rw [List.find?_map]
  congr 1
  refine find_congr _ _ bes (fun b _ => ?_)
  simp only [Function.comp_apply]
  congr 1
  rw [(dec_preserves bid b).2]

theorem refOf_bumpRef_ne (bes : List Backend) (a x : L3n4Addr) (h : x ≠ a) :
    refOf (bumpRef bes a) x = refOf bes x := by
  unfold refOf
  rw [find_bumpRef]
  cases hf : findBackendByAddr bes x with
  | none => rfl
  | some b =>
    have hbx : b.addr = x := by
      have := List.find?_some hf
      simpa using this
    show (if b.addr = a then { b with refCount := b.refCount + 1 } else b).refCount = b.refCount
    rw [if_neg (by rw [hbx]; exact h)]

theorem refOf_bumpRef_self (bes : List Backend) (a : L3n4Addr) (b : Backend)
    (h : findBackendByAddr bes a = some b) :
    refOf (bumpRef bes a) a = b.refCount + 1 := by
  unfold refOf
  rw [find_bumpRef, h]
  have hba : b.addr = a := by
    have := List.find?_some h
    simpa using this
  show (if b.addr = a then { b with refCount := b.refCount + 1 } else b).refCount = b.refCount + 1
  rw [if_pos hba]

theorem find_append_some (bes l2 : List Backend) (x : L3n4Addr) (b : Backend)
    (h : findBackendByAddr bes x = some b) :
    findBackendByAddr (bes ++ l2) x = some b := by
  unfold findBackendByAddr at h ⊢
  rw [List.find?_append, h]
  rfl

theorem find_append_new (bes : List Backend) (nb : Backend) (x : L3n4Addr)
    (h : findBackendByAddr bes x = none) :
    findBackendByAddr (bes ++ [nb]) x =
      (if nb.addr = x then some nb else none) := by
  unfold findBackendByAddr at h ⊢
  rw [List.find?_append, h]
  by_cases hx : nb.addr = x
  · simp [List.find?_cons, hx]
  · simp [List.find?_cons, hx]

theorem refOf_append_new_self (bes : List Backend) (bid : Nat) (a : L3n4Addr) (r : Nat)
    (h : findBackendByAddr bes a = none) :
    refOf (bes ++ [⟨bid, a, r⟩]) a = r := by
  unfold refOf
  rw [find_append_new bes _ a h, if_pos rfl]

theorem refOf_append_new_ne (bes : List Backend) (nb : Backend) (x : L3n4Addr)
    (hx : nb.addr ≠ x) :
    refOf (bes ++ [nb]) x = refOf bes x := by
  unfold refOf
  cases hf : findBackendByAddr bes x with
  | none => rw [find_append_new bes nb x hf, if_neg hx]
  | some b => rw [find_append_some bes [nb] x b hf]

theorem refOf_zero_of_none (bes : List Backend) (a : L3n4Addr)
    (h : ∀ b ∈ bes, b.addr ≠ a) : refOf bes a = 0 := by
  unfold refOf findBackendByAddr
  rw [List.find?_eq_none.mpr (fun b hb => by simpa using h b hb)]

theorem findBackendByAddr_of_mem (bes : List Backend) (b : Backend)
    (hn : (bes.map Backend.addr).Nodup) (hb : b ∈ bes) :
    findBackendByAddr bes b.addr = some b :=
  find_self Backend.addr bes b hn hb

theorem refOf_of_mem (bes : List Backend) (b : Backend)
    (hn : (bes.map Backend.addr).Nodup) (hb : b ∈ bes) :
    refOf bes b.addr = b.refCount := by
  unfold refOf
  rw [findBackendByAddr_of_mem bes b hn hb]

theorem refOf_pos_iff (bes : List Backend) (a : L3n4Addr)
    (hpos : ∀ b ∈ bes, 0 < b.refCount) :
    0 < refOf bes a ↔ ∃ b ∈ bes, b.addr = a := by
  constructor
  · intro h
    cases hf : findBackendByAddr bes a with
    | none =>
      unfold refOf at h
      rw [hf] at h
      simp at h
    | some b =>
      exact ⟨b, List.mem_of_find?_eq_some hf, by simpa using List.find?_some hf⟩
  · rintro ⟨b, hb, hba⟩
    cases hf : findBackendByAddr bes a with
    | none =>
      unfold findBackendByAddr at hf
      have h2 := List.find?_eq_none.mp hf b hb
      simp [hba] at h2
    | some b2 =>
      have he : refOf bes a = b2.refCount := by
        unfold refOf
        rw [hf]
      rw [he]
      exact hpos b2 (List.mem_of_find?_eq_some hf)

end SvcMgr

namespace SvcMgr

theorem refOf_decRef_self (bes : List Backend) (bid : Nat) (b0 : Backend)
    (hmem : b0 ∈ bes) (hid : b0.id = bid) (haddrN : (bes.map Backend.addr).Nodup) :
    refOf (decRefById bes bid) b0.addr = b0.refCount - 1 := by
  unfold refOf
  rw [find_decRef, findBackendByAddr_of_mem bes b0 haddrN hmem]
  show (if b0.id = bid then { b0 with refCount := b0.refCount - 1 } else b0).refCount =
    b0.refCount - 1
  rw [if_pos hid]

theorem refOf_decRef_ne (bes : List Backend) (bid : Nat) (b0 : Backend) (x : L3n4Addr)
    (hmem : b0 ∈ bes) (hid : b0.id = bid) (hidsN : (bes.map Backend.id).Nodup)
    (hx : x ≠ b0.addr) :
    refOf (decRefById bes bid) x = refOf bes x := by
  unfold refOf
  rw [find_decRef]
  cases hf : findBackendByAddr bes x with
  | none => rfl
  | some b2 =>
    have hb2 : b2 ∈ bes := List.mem_of_find?_eq_some hf
    have hb2x : b2.addr = x := by simpa using List.find?_some hf
    have hne : b2.id ≠ bid := by
      intro he
      have hbb : b2 = b0 := List.inj_on_of_nodup_map hidsN hb2 hmem (by rw [he, hid])
      exact hx (by rw [← hb2x, hbb])
    show (if b2.id = bid then { b2 with refCount := b2.refCount - 1 } else b2).refCount =
      b2.refCount
    rw [if_neg hne]

theorem refOf_filter_self (bes : List Backend) (bid : Nat) (b0 : Backend)
    (hmem : b0 ∈ bes) (hid : b0.id = bid) (haddrN : (bes.map Backend.addr).Nodup) :
    refOf (bes.filter (fun y => decide (y.id ≠ bid))) b0.addr = 0 := by
  apply refOf_zero_of_none
  intro b hb hba
  rw [List.mem_filter] at hb
  have hbb : b = b0 := List.inj_on_of_nodup_map haddrN hb.1 hmem hba
  have : b.id ≠ bid := by simpa using hb.2
  exact this (by rw [hbb, hid])

theorem refOf_filter_ne (bes : List Backend) (bid : Nat) (b0 : Backend) (x : L3n4Addr)
    (hmem : b0 ∈ bes) (hid : b0.id = bid) (hidsN : (bes.map Backend.id).Nodup)
    (hx : x ≠ b0.addr) :
    refOf (bes.filter (fun y => decide (y.id ≠ bid))) x = refOf bes x := by
  unfold refOf findBackendByAddr
  rw [find_filter_eq]
  intro y hy hq
  have hyid : y.id = bid := by simpa using hq
  have hyb : y = b0 := List.inj_on_of_nodup_map hidsN hy hmem (by rw [hyid, hid])
  simp only [decide_eq_false_iff_not]
  rw [hyb]
  exact fun he => hx he.symm

theorem mem_decRef_of_ne (bes : List Backend) (bid : Nat) (b : Backend)
    (hb : b ∈ bes) (hne : b.id ≠ bid) : b ∈ decRefById bes bid := by
  unfold decRefById
  exact List.mem_map.mpr ⟨b, hb, by rw [if_neg hne]⟩

theorem mem_bumpRef_of_ne (bes : List Backend) (a : L3n4Addr) (b : Backend)
    (hb : b ∈ bes) (hne : b.addr ≠ a) : b ∈ bumpRef bes a := by
  unfold bumpRef
  exact List.mem_map.mpr ⟨b, hb, by rw [if_neg hne]⟩

theorem mem_bumpRef_rev (bes : List Backend) (a : L3n4Addr) (b2 : Backend)
    (hb : b2 ∈ bumpRef bes a) :
    ∃ b ∈ bes, b2 = (if b.addr = a then { b with refCount := b.refCount + 1 } else b) := by
  obtain ⟨b, hb0, he⟩ := List.mem_map.mp hb
  exact ⟨b, hb0, he.symm⟩

theorem mem_decRef_rev (bes : List Backend) (bid : Nat) (b2 : Backend)
    (hb : b2 ∈ decRefById bes bid) :
    ∃ b ∈ bes, b2 = (if b.id = bid then { b with refCount := b.refCount - 1 } else b) := by
  obtain ⟨b, hb0, he⟩ := List.mem_map.mp hb
  exact ⟨b, hb0, he.symm⟩

theorem pos_bumpRef (bes : List Backend) (a : L3n4Addr)
    (hpos : ∀ b ∈ bes, 0 < b.refCount) :
    ∀ b2 ∈ bumpRef bes a, 0 < b2.refCount := by
  intro b2 hb2
  obtain ⟨b, hb, rfl⟩ := mem_bumpRef_rev bes a b2 hb2
  have := hpos b hb
  split <;> simp <;> omega

theorem pos_decRef (bes : List Backend) (bid : Nat)
    (hpos : ∀ b ∈ bes, 0 < b.refCount)
    (h2 : ∀ b ∈ bes, b.id = bid → 2 ≤ b.refCount) :
    ∀ b2 ∈ decRefById bes bid, 0 < b2.refCount := by
  intro b2 hb2
  obtain ⟨b, hb, rfl⟩ := mem_decRef_rev bes bid b2 hb2
  by_cases hbi : b.id = bid
  · have := h2 b hb hbi
    rw [if_pos hbi]
    simp
    omega
  · rw [if_neg hbi]
    exact hpos b hb

theorem svcRefs_append (l1 l2 : List Svc) (a : L3n4Addr) :
    svcRefs (l1 ++ l2) a = svcRefs l1 a + svcRefs l2 a :=
  List.countP_append _ _ _

theorem svcRefs_cons (s : Svc) (ss : List Svc) (a : L3n4Addr) :
    svcRefs (s :: ss) a = svcRefs ss a + (if a ∈ svcAddrs s then 1 else 0) := by
  unfold svcRefs
  rw [List.countP_cons]
  by_cases h : a ∈ svcAddrs s <;> simp [h]

theorem svcRefs_nil (a : L3n4Addr) : svcRefs [] a = 0 := rfl

theorem svcRefs_two_le (ss : List Svc) (s1 s2 : Svc) (a : L3n4Addr)
    (h1 : s1 ∈ ss) (h2 : s2 ∈ ss) (hne : s1 ≠ s2)
    (ha1 : a ∈ svcAddrs s1) (ha2 : a ∈ svcAddrs s2) :
    2 ≤ svcRefs ss a :=
  countP_two_le _ ss s1 s2 h1 h2 hne (by simpa using ha1) (by simpa using ha2)

theorem allocate_ok (a : IDAllocator) (v : Nat) (a1 : IDAllocator)
    (h : a.allocate = .ok (v, a1)) :
    v ∉ a.allocated ∧ a1 = { a with allocated := v :: a.allocated } := by
  unfold IDAllocator.allocate at h
  cases hf : findFree a.allocated a.maxID 1 with
  | none => rw [hf] at h; cases h
  | some w =>
    rw [hf] at h
    cases h
    exact ⟨(findFree_some a.allocated a.maxID 1 _ hf).2.2.1, rfl⟩

theorem release_mem_iff (a : IDAllocator) (k j : Nat) (hj : j ≠ k) :
    j ∈ (a.release k).allocated ↔ j ∈ a.allocated := by
  unfold IDAllocator.release
  split
  · simp [List.mem_filter, hj]
  · exact Iff.rfl

theorem nodup_append_sing {α : Type} (l : List α) (x : α) (hn : l.Nodup) (hx : x ∉ l) :
    (l ++ [x]).Nodup := by
  have : (l ++ x :: []).Nodup ↔ (x :: (l ++ [])).Nodup := List.nodup_middle
  rw [show l ++ [x] = l ++ x :: [] from rfl, this, List.append_nil, List.nodup_cons]
  exact ⟨hx, hn⟩

end SvcMgr

namespace SvcMgr

theorem refOf_none (bes : List Backend) (a : L3n4Addr)
    (h : findBackendByAddr bes a = none) : refOf bes a = 0 := by
  unfold refOf
  rw [h]

theorem refOf_some (bes : List Backend) (a : L3n4Addr) (b : Backend)
    (h : findBackendByAddr bes a = some b) : refOf bes a = b.refCount := by
  unfold refOf
  rw [h]

theorem addr_notin_of_find_none (bes : List Backend) (a : L3n4Addr)
    (h : findBackendByAddr bes a = none) : ∀ b ∈ bes, b.addr ≠ a := by
  intro b hb
  have := List.find?_eq_none.mp h b hb
  simpa using this

theorem addLoop_spec :
    ∀ (toAdd : List L3n4Addr) (bes : List Backend) (alloc : IDAllocator) (lbm : LBMockMap)
      (acc : List (Nat × L3n4Addr)) (bes1 : List Backend) (alloc1 : IDAllocator)
      (lbm1 : LBMockMap) (acc1 : List (Nat × L3n4Addr)),
      addBackendsLoop bes alloc lbm toAdd acc = .ok (bes1, alloc1, lbm1, acc1) →
      toAdd.Nodup → LoopInv bes alloc lbm →
      LoopInv bes1 alloc1 lbm1 ∧
      lbm1.serviceBackendsByID = lbm.serviceBackendsByID ∧
      (∀ a, refOf bes1 a = refOf bes a + (if a ∈ toAdd then 1 else 0)) ∧
      (∃ ps, acc1 = acc ++ ps ∧ ps.map Prod.snd = toAdd ∧
        ∀ p ∈ ps, ∃ b ∈ bes1, b.id = p.1 ∧ b.addr = p.2) ∧
      (∀ b ∈ bes, ∃ b2 ∈ bes1, b2.id = b.id ∧ b2.addr = b.addr) ∧
      (∀ b ∈ bes, b.addr ∉ toAdd → b ∈ bes1) ∧
      (∀ j, j ∈ alloc.allocated → j ∈ alloc1.allocated) ∧
      alloc1.maxID = alloc.maxID := by
  intro toAdd
  induction toAdd with
  | nil =>
    intro bes alloc lbm acc bes1 alloc1 lbm1 acc1 h _ hInv
    unfold addBackendsLoop at h
    cases h
    refine ⟨hInv, rfl, by simp, ⟨[], by simp, rfl, by simp⟩, ?_, ?_, fun j hj => hj, rfl⟩
    · exact fun b hb => ⟨b, hb, rfl, rfl⟩
    · exact fun b hb _ => hb
  | cons a rest ih =>
    intro bes alloc lbm acc bes1 alloc1 lbm1 acc1 h hN hInv
    rw [List.nodup_cons] at hN
    unfold addBackendsLoop at h
    cases hf : findBackendByAddr bes a with
    | some b =>
      rw [hf] at h
      have hba : b.addr = a := by simpa using List.find?_some hf
      have hbm : b ∈ bes := List.mem_of_find?_eq_some hf
      have hInv2 : LoopInv (bumpRef bes a) alloc lbm := by
        refine ⟨bumpRef_map_id bes a ▸ hInv.idsN, bumpRef_map_addr bes a ▸ hInv.addrsN,
          ?_, ?_, pos_bumpRef bes a hInv.pos⟩
        · intro b2 hb2
          obtain ⟨b0, hb0, rfl⟩ := mem_bumpRef_rev bes a b2 hb2
          rw [(bump_preserves a b0).1]
          exact hInv.idsAl b0 hb0
        · rw [bumpRef_map_pair]
          exact hInv.sync
      obtain ⟨hL, hSvc, hRef, ⟨ps, hacc, hmap, hptr⟩, hPers, hMem, hAl, hMax⟩ :=
        ih (bumpRef bes a) alloc lbm (acc ++ [(b.id, a)]) bes1 alloc1 lbm1 acc1 h hN.2 hInv2
      refine ⟨hL, hSvc, ?_, ⟨(b.id, a) :: ps, by simpa using hacc, by simpa using hmap, ?_⟩,
        ?_, ?_, hAl, hMax⟩
      · intro x
        by_cases hxa : x = a
        · subst hxa
          rw [hRef x, refOf_bumpRef_self bes x b hf, refOf_some bes x b hf]
          simp [hN.1]
        · rw [hRef x, refOf_bumpRef_ne bes a x hxa]
          simp [hxa]
      · intro p hp
        rcases List.mem_cons.mp hp with rfl | hp
        · have hbb : (if b.addr = a then { b with refCount := b.refCount + 1 } else b) ∈
              bumpRef bes a := List.mem_map_of_mem _ hbm
          obtain ⟨b2, hb2, hi, ha2⟩ := hPers _ hbb
          exact ⟨b2, hb2, by rw [hi, (bump_preserves a b).1],
            by rw [ha2, (bump_preserves a b).2, hba]⟩
        · exact hptr p hp
      · intro b0 hb0
        have hbb : (if b0.addr = a then { b0 with refCount := b0.refCount + 1 } else b0) ∈
            bumpRef bes a := List.mem_map_of_mem _ hb0
        obtain ⟨b2, hb2, hi, ha2⟩ := hPers _ hbb
        exact ⟨b2, hb2, by rw [hi, (bump_preserves a b0).1],
          by rw [ha2, (bump_preserves a b0).2]⟩
      · intro b0 hb0 hnin
        have hne : b0.addr ≠ a := fun he => hnin (by simp [he])
        exact hMem b0 (mem_bumpRef_of_ne bes a b0 hb0 hne)
          (fun hmem => hnin (List.mem_cons_of_mem _ hmem))
    | none =>
      rw [hf] at h
      cases hal : alloc.allocate with
      | error e => rw [hal] at h; cases h
      | ok r =>
        obtain ⟨bid, allocA⟩ := r
        rw [hal] at h
        obtain ⟨hfresh, hAeq⟩ := allocate_ok alloc bid allocA hal
        have hanotin : ∀ b ∈ bes, b.addr ≠ a := addr_notin_of_find_none bes a hf
        have hidfresh : bid ∉ bes.map Backend.id := by
          intro hmem
          obtain ⟨b0, hb0, he⟩ := List.mem_map.mp hmem
          exact hfresh (he ▸ hInv.idsAl b0 hb0)
        have haddrfresh : a ∉ bes.map Backend.addr := by
          intro hmem
          obtain ⟨b0, hb0, he⟩ := List.mem_map.mp hmem
          exact hanotin b0 hb0 he
        have hInv2 : LoopInv (bes ++ [⟨bid, a, 1⟩]) allocA
            { lbm with backendByID := alistUpsert lbm.backendByID bid a } := by
          refine ⟨?_, ?_, ?_, ?_, ?_⟩
          · rw [List.map_append]
            exact nodup_append_sing _ _ hInv.idsN hidfresh
          · rw [List.map_append]
            exact nodup_append_sing _ _ hInv.addrsN haddrfresh
          · intro b2 hb2
            rcases List.mem_append.mp hb2 with hb2 | hb2
            · rw [hAeq]
              exact List.mem_cons_of_mem _ (hInv.idsAl b2 hb2)
            · rw [List.mem_singleton] at hb2
              subst hb2
              rw [hAeq]
              exact List.mem_cons_self _ _
          · have hkeys : ∀ q ∈ lbm.backendByID, q.1 ≠ bid := by
              intro q hq
              rw [hInv.sync] at hq
              obtain ⟨b0, hb0, he⟩ := List.mem_map.mp hq
              rw [← he]
              intro hee
              exact hidfresh (hee ▸ List.mem_map_of_mem Backend.id hb0)
            show alistUpsert lbm.backendByID bid a = _
            rw [alistUpsert_append lbm.backendByID bid a hkeys, hInv.sync, List.map_append]
            rfl
          · intro b2 hb2
            rcases List.mem_append.mp hb2 with hb2 | hb2
            · exact hInv.pos b2 hb2
            · rw [List.mem_singleton] at hb2
              subst hb2
              exact Nat.one_pos
        obtain ⟨hL, hSvc, hRef, ⟨ps, hacc, hmap, hptr⟩, hPers, hMem, hAl, hMax⟩ :=
          ih (bes ++ [⟨bid, a, 1⟩]) allocA _ (acc ++ [(bid, a)]) bes1 alloc1 lbm1 acc1 h
            hN.2 hInv2
        refine ⟨hL, hSvc, ?_, ⟨(bid, a) :: ps, by simpa using hacc, by simpa using hmap, ?_⟩,
          ?_, ?_, ?_, by rw [hMax, hAeq]⟩
        · intro x
          by_cases hxa : x = a
          · subst hxa
            rw [hRef x, refOf_append_new_self bes bid x 1 hf, refOf_none bes x hf]
            simp [hN.1]
          · rw [hRef x, refOf_append_new_ne bes _ x (fun he => hxa (he.symm))]
            simp [hxa]
        · intro p hp
          rcases List.mem_cons.mp hp with rfl | hp
          · have hnb : (⟨bid, a, 1⟩ : Backend) ∈ bes ++ [⟨bid, a, 1⟩] := by simp
            obtain ⟨b2, hb2, hi, ha2⟩ := hPers _ hnb
            exact ⟨b2, hb2, hi, ha2⟩
          · exact hptr p hp
        · intro b0 hb0
          exact hPers b0 (List.mem_append_left _ hb0)
        · intro b0 hb0 hnin
          exact hMem b0 (List.mem_append_left _ hb0)
            (fun hmem => hnin (List.mem_cons_of_mem _ hmem))
        · intro j hj
          apply hAl
          rw [hAeq]
          exact List.mem_cons_of_mem _ hj

end SvcMgr

namespace SvcMgr

theorem filter_pair_comm (bes : List Backend) (k : Nat) :
    (bes.map (fun b => (b.id, b.addr))).filter (fun q => decide (q.1 ≠ k)) =
    (bes.filter (fun x => decide (x.id ≠ k))).map (fun b => (b.id, b.addr)) := by
  induction bes with
  | nil => rfl
  | cons b t ihh =>
    by_cases h : b.id = k
    · rw [List.map_cons, List.filter_cons_of_neg (by simp [h]),
        List.filter_cons_of_neg (by simp [h]), ihh]
    · rw [List.map_cons, List.filter_cons_of_pos (by simp [h]),
        List.filter_cons_of_pos (by simp [h]), List.map_cons, ihh]

theorem removeLoop_spec :
    ∀ (toRemove : List (Nat × L3n4Addr)) (bes : List Backend) (alloc : IDAllocator)
      (lbm : LBMockMap) (bes2 : List Backend) (alloc2 : IDAllocator) (lbm2 : LBMockMap),
      removeBackendsLoop bes alloc lbm toRemove = (bes2, alloc2, lbm2) →
      (toRemove.map Prod.snd).Nodup →
      (∀ p ∈ toRemove, ∃ b ∈ bes, b.id = p.1 ∧ b.addr = p.2) →
      LoopInv bes alloc lbm →
      LoopInv bes2 alloc2 lbm2 ∧
      lbm2.serviceBackendsByID = lbm.serviceBackendsByID ∧
      (∀ a, a ∈ toRemove.map Prod.snd → refOf bes2 a + 1 = refOf bes a) ∧
      (∀ a, a ∉ toRemove.map Prod.snd → refOf bes2 a = refOf bes a) ∧
      (∀ b ∈ bes, b.addr ∉ toRemove.map Prod.snd → b ∈ bes2) ∧
      (∀ b ∈ bes, 2 ≤ b.refCount → ∃ b2 ∈ bes2, b2.id = b.id ∧ b2.addr = b.addr) := by
  intro toRemove
  induction toRemove with
  | nil =>
    intro bes alloc lbm bes2 alloc2 lbm2 h _ _ hInv
    unfold removeBackendsLoop at h
    cases h
    refine ⟨hInv, rfl, by simp, fun a _ => rfl, fun b hb _ => hb, ?_⟩
    exact fun b hb _ => ⟨b, hb, rfl, rfl⟩
  | cons p rest ih =>
    intro bes alloc lbm bes2 alloc2 lbm2 h hN href hInv
    obtain ⟨bid, a⟩ := p
    rw [List.map_cons, List.nodup_cons] at hN
    dsimp only at hN
    obtain ⟨b0, hb0mem, hid, haddr⟩ := href (bid, a) (by simp)
    dsimp only at hid haddr
    have hfind : bes.find? (fun x => decide (x.id = bid)) = some b0 := by
      rw [← hid]
      exact find_self Backend.id bes b0 hInv.idsN hb0mem
    unfold removeBackendsLoop at h
    dsimp only at h
    rw [hfind] at h
    dsimp only at h
    have hrefp : ∀ p2 ∈ rest, p2.2 ≠ a := by
      intro p2 hp2 he
      apply hN.1
      rw [← he]
      exact List.mem_map_of_mem Prod.snd hp2
    by_cases hrc : b0.refCount ≤ 1
    · rw [if_pos hrc] at h
      have hr1 : b0.refCount = 1 := by
        have := hInv.pos b0 hb0mem
        omega
      have hInv2 : LoopInv (bes.filter (fun x => decide (x.id ≠ bid))) (alloc.release bid)
          { lbm with backendByID := lbm.backendByID.filter (fun q => decide (q.1 ≠ bid)) } := by
        refine ⟨?_, ?_, ?_, ?_, ?_⟩
        · exact List.Nodup.sublist ((List.filter_sublist bes).map Backend.id) hInv.idsN
        · exact List.Nodup.sublist ((List.filter_sublist bes).map Backend.addr) hInv.addrsN
        · intro b2 hb2
          rw [List.mem_filter] at hb2
          have hne : b2.id ≠ bid := by simpa using hb2.2
          exact (release_mem_iff alloc bid b2.id hne).mpr (hInv.idsAl b2 hb2.1)
        · show lbm.backendByID.filter _ = _
          rw [hInv.sync, filter_pair_comm]
        · intro b2 hb2
          rw [List.mem_filter] at hb2
          exact hInv.pos b2 hb2.1
      have hrefp2 : ∀ p2 ∈ rest, ∃ b ∈ bes.filter (fun x => decide (x.id ≠ bid)),
          b.id = p2.1 ∧ b.addr = p2.2 := by
        intro p2 hp2
        obtain ⟨b, hb, hbi, hba⟩ := href p2 (List.mem_cons_of_mem _ hp2)
        have hbne : b ≠ b0 := by
          intro he
          exact hrefp p2 hp2 (by rw [← hba, he, haddr])
        have hbid : b.id ≠ bid := by
          intro he
          exact hbne (List.inj_on_of_nodup_map hInv.idsN hb hb0mem (by rw [he, hid]))
        exact ⟨b, List.mem_filter.mpr ⟨hb, by simpa using hbid⟩, hbi, hba⟩
      obtain ⟨hL, hSvc, hRem, hKeep, hMem, hSurv⟩ :=
        ih _ _ _ bes2 alloc2 lbm2 h hN.2 hrefp2 hInv2
      refine ⟨hL, hSvc, ?_, ?_, ?_, ?_⟩
      · intro x hx
        rcases List.mem_cons.mp hx with rfl | hx
        · rw [hKeep x hN.1, ← haddr,
            refOf_filter_self bes bid b0 hb0mem hid hInv.addrsN,
            refOf_of_mem bes b0 hInv.addrsN hb0mem, hr1]
        · rw [hRem x hx, refOf_filter_ne bes bid b0 x hb0mem hid hInv.idsN]
          intro he
          obtain ⟨p2, hp2, hp2e⟩ := List.mem_map.mp hx
          exact hrefp p2 hp2 (by rw [hp2e, he, haddr])
      · intro x hx
        have hxa : x ≠ a := fun he => hx (by simp [he])
        rw [hKeep x (fun hm => hx (List.mem_cons_of_mem _ hm)),
          refOf_filter_ne bes bid b0 x hb0mem hid hInv.idsN (haddr ▸ hxa)]
      · intro b hb hnin
        have hba2 : b.addr ≠ a := fun he => hnin (by simp [he])
        have hbne : b ≠ b0 := fun he => hba2 (by rw [he, haddr])
        have hbid : b.id ≠ bid := fun he =>
          hbne (List.inj_on_of_nodup_map hInv.idsN hb hb0mem (by rw [he, hid]))
        exact hMem b (List.mem_filter.mpr ⟨hb, by simpa using hbid⟩)
          (fun hm => hnin (List.mem_cons_of_mem _ hm))
      · intro b hb h2
        by_cases hba2 : b.addr = a
        · have hbb : b = b0 :=
            List.inj_on_of_nodup_map hInv.addrsN hb hb0mem (by rw [hba2, haddr])
          rw [hbb] at h2
          omega
        · have hbne : b ≠ b0 := fun he => hba2 (by rw [he, haddr])
          have hbid : b.id ≠ bid := fun he =>
            hbne (List.inj_on_of_nodup_map hInv.idsN hb hb0mem (by rw [he, hid]))
          exact hSurv b (List.mem_filter.mpr ⟨hb, by simpa using hbid⟩) h2
    · rw [if_neg hrc] at h
      have h2all : ∀ b ∈ bes, b.id = bid → 2 ≤ b.refCount := by
        intro b hb he
        have hbb : b = b0 := List.inj_on_of_nodup_map hInv.idsN hb hb0mem (by rw [he, hid])
        rw [hbb]
        omega
      have hInv2 : LoopInv (decRefById bes bid) alloc lbm := by
        refine ⟨decRef_map_id bes bid ▸ hInv.idsN, decRef_map_addr bes bid ▸ hInv.addrsN,
          ?_, ?_, pos_decRef bes bid hInv.pos h2all⟩
        · intro b2 hb2
          obtain ⟨b, hb, rfl⟩ := mem_decRef_rev bes bid b2 hb2
          rw [(dec_preserves bid b).1]
          exact hInv.idsAl b hb
        · rw [decRef_map_pair]
          exact hInv.sync
      have hrefp2 : ∀ p2 ∈ rest, ∃ b ∈ decRefById bes bid, b.id = p2.1 ∧ b.addr = p2.2 := by
        intro p2 hp2
        obtain ⟨b, hb, hbi, hba⟩ := href p2 (List.mem_cons_of_mem _ hp2)
        have hbne : b ≠ b0 := by
          intro he
          exact hrefp p2 hp2 (by rw [← hba, he, haddr])
        have hbid : b.id ≠ bid := by
          intro he
          exact hbne (List.inj_on_of_nodup_map hInv.idsN hb hb0mem (by rw [he, hid]))
        exact ⟨b, mem_decRef_of_ne bes bid b hb hbid, hbi, hba⟩
      obtain ⟨hL, hSvc, hRem, hKeep, hMem, hSurv⟩ :=
        ih _ _ _ bes2 alloc2 lbm2 h hN.2 hrefp2 hInv2
      refine ⟨hL, hSvc, ?_, ?_, ?_, ?_⟩
      · intro x hx
        rcases List.mem_cons.mp hx with rfl | hx
        · rw [hKeep x hN.1, ← haddr,
            refOf_decRef_self bes bid b0 hb0mem hid hInv.addrsN,
            refOf_of_mem bes b0 hInv.addrsN hb0mem]
          omega
        · rw [hRem x hx]
          rw [refOf_decRef_ne bes bid b0 x hb0mem hid hInv.idsN]
          intro he
          obtain ⟨p2, hp2, hp2e⟩ := List.mem_map.mp hx
          exact hrefp p2 hp2 (by rw [hp2e, he, haddr])
      · intro x hx
        have hxa : x ≠ a := fun he => hx (by simp [he])
        rw [hKeep x (fun hm => hx (List.mem_cons_of_mem _ hm)),
          refOf_decRef_ne bes bid b0 x hb0mem hid hInv.idsN (haddr ▸ hxa)]
      · intro b hb hnin
        have hba2 : b.addr ≠ a := fun he => hnin (by simp [he])
        have hbne : b ≠ b0 := fun he => hba2 (by rw [he, haddr])
        have hbid : b.id ≠ bid := fun he =>
          hbne (List.inj_on_of_nodup_map hInv.idsN hb hb0mem (by rw [he, hid]))
        exact hMem b (mem_decRef_of_ne bes bid b hb hbid)
          (fun hm => hnin (List.mem_cons_of_mem _ hm))
      · intro b hb h2
        by_cases hba2 : b.addr = a
        · have hbb : b = b0 :=
            List.inj_on_of_nodup_map hInv.addrsN hb hb0mem (by rw [hba2, haddr])
          have hmem2 : ({ b0 with refCount := b0.refCount - 1 } : Backend) ∈
              decRefById bes bid := by
            unfold decRefById
            exact List.mem_map.mpr ⟨b0, hb0mem, by rw [if_pos hid]⟩
          have hfin := hMem _ hmem2 ?_
          · exact ⟨_, hfin, by rw [hbb], by rw [hbb]⟩
          · show b0.addr ∉ rest.map Prod.snd
            rw [haddr]
            exact hN.1
        · have hbne : b ≠ b0 := fun he => hba2 (by rw [he, haddr])
          have hbid : b.id ≠ bid := fun he =>
            hbne (List.inj_on_of_nodup_map hInv.idsN hb hb0mem (by rw [he, hid]))
          exact hSurv b (mem_decRef_of_ne bes bid b hb hbid) h2

end SvcMgr

namespace SvcMgr

theorem mem_toAddOf (s : Svc) (desired : List L3n4Addr) (a : L3n4Addr) :
    a ∈ toAddOf s desired ↔ a ∈ desired ∧ a ∉ svcAddrs s := by
  unfold toAddOf
  rw [List.mem_filter]
  simp

theorem mem_keptOf (s : Svc) (desired : List L3n4Addr) (p : Nat × L3n4Addr) :
    p ∈ keptOf s desired ↔ p ∈ s.backends ∧ p.2 ∈ desired := by
  unfold keptOf
  rw [List.mem_filter]
  simp

theorem mem_toRemoveOf (s : Svc) (desired : List L3n4Addr) (p : Nat × L3n4Addr) :
    p ∈ toRemoveOf s desired ↔ p ∈ s.backends ∧ p.2 ∉ desired := by
  unfold toRemoveOf
  rw [List.mem_filter]
  simp

theorem mem_toRemove_snds (s : Svc) (desired : List L3n4Addr) (a : L3n4Addr) :
    a ∈ (toRemoveOf s desired).map Prod.snd ↔ a ∈ svcAddrs s ∧ a ∉ desired := by
  constructor
  · intro h
    obtain ⟨p, hp, rfl⟩ := List.mem_map.mp h
    obtain ⟨hp1, hp2⟩ := (mem_toRemoveOf s desired p).mp hp
    exact ⟨List.mem_map_of_mem Prod.snd hp1, hp2⟩
  · rintro ⟨ha, hd⟩
    obtain ⟨p, hp, hpe⟩ := List.mem_map.mp ha
    subst hpe
    exact List.mem_map_of_mem Prod.snd ((mem_toRemoveOf s desired p).mpr ⟨hp, hd⟩)

theorem mem_kept_snds (s : Svc) (desired : List L3n4Addr) (a : L3n4Addr) :
    a ∈ (keptOf s desired).map Prod.snd ↔ a ∈ svcAddrs s ∧ a ∈ desired := by
  constructor
  · intro h
    obtain ⟨p, hp, rfl⟩ := List.mem_map.mp h
    obtain ⟨hp1, hp2⟩ := (mem_keptOf s desired p).mp hp
    exact ⟨List.mem_map_of_mem Prod.snd hp1, hp2⟩
  · rintro ⟨ha, hd⟩
    obtain ⟨p, hp, hpe⟩ := List.mem_map.mp ha
    subst hpe
    exact List.mem_map_of_mem Prod.snd ((mem_keptOf s desired p).mpr ⟨hp, hd⟩)

theorem toRemove_snds_nodup (s : Svc) (desired : List L3n4Addr)
    (h : (svcAddrs s).Nodup) : ((toRemoveOf s desired).map Prod.snd).Nodup :=
  List.Nodup.sublist ((List.filter_sublist s.backends).map Prod.snd) h

theorem kept_snds_nodup (s : Svc) (desired : List L3n4Addr)
    (h : (svcAddrs s).Nodup) : ((keptOf s desired).map Prod.snd).Nodup :=
  List.Nodup.sublist ((List.filter_sublist s.backends).map Prod.snd) h

theorem toAddOf_nodup (s : Svc) (desired : List L3n4Addr) (h : desired.Nodup) :
    (toAddOf s desired).Nodup :=
  List.Nodup.filter _ h

end SvcMgr

namespace SvcMgr

theorem processBackends_spec (st : ServiceState) (s s0 : Svc) (desired : List L3n4Addr)
    (created : Bool) (l1 l2 : List Svc) (out : Bool × Nat × ServiceState)
    (hres : processBackends st s desired created = .ok out)
    (hsvc : st.services = l1 ++ s0 :: l2)
    (hid : s0.id = s.id) (hfe : s0.frontend = s.frontend) (hbk : s0.backends = s.backends)
    (hIds : (st.services.map Svc.id).Nodup)
    (hFes : (st.services.map Svc.frontend).Nodup)
    (hLoop : LoopInv st.backends st.beAlloc st.lbmap)
    (hRefs : ∀ a, refOf st.backends a = svcRefs st.services a)
    (hLbSvc : st.lbmap.serviceBackendsByID = l1.map svcEntry ++ svcEntry s0 :: l2.map svcEntry ∨
      (st.lbmap.serviceBackendsByID = l1.map svcEntry ∧ l2 = []))
    (hSvcAl : ∀ x ∈ st.services, x.id ∈ st.svcAlloc.allocated)
    (hAttach : ∀ x ∈ st.services, ∀ p ∈ x.backends, ∃ b ∈ st.backends, b.id = p.1 ∧ b.addr = p.2)
    (hAttachN : ∀ x ∈ st.services, (svcAddrs x).Nodup)
    (hDes : desired.Nodup) :
    ∃ added, out.1 = created ∧ out.2.1 = s.id ∧
      added.map Prod.snd = toAddOf s desired ∧
      out.2.2.services = l1 ++ ({ s with backends := keptOf s desired ++ added }) :: l2 ∧
      out.2.2.svcAlloc = st.svcAlloc ∧
      Inv out.2.2 := by
  have hs0mem : s0 ∈ st.services := by
    rw [hsvc]
    exact List.mem_append_right _ (List.mem_cons_self _ _)
  have hmid := nodup_map_mid Svc.id l1 l2 s0 (hsvc ▸ hIds)
  have hl1id : ∀ y ∈ l1, y.id ≠ s.id := fun y hy => hid ▸ hmid.1 y hy
  have hl2id : ∀ y ∈ l2, y.id ≠ s.id := fun y hy => hid ▸ hmid.2 y hy
  have hmidf := nodup_map_mid Svc.frontend l1 l2 s0 (hsvc ▸ hFes)
  have haddr_eq : svcAddrs s0 = svcAddrs s := by
    unfold svcAddrs
    rw [hbk]
  have hsN : (svcAddrs s).Nodup := haddr_eq ▸ hAttachN s0 hs0mem
  unfold processBackends at hres
  cases hadd : addBackendsLoop st.backends st.beAlloc st.lbmap (toAddOf s desired) [] with
  | error e => rw [hadd] at hres; cases hres
  | ok quad =>
    obtain ⟨bes1, alloc1, lbm1, added⟩ := quad
    rw [hadd] at hres
    dsimp only at hres
    obtain ⟨hL1, hSvc1, hRef1, ⟨ps, hacc, hmap, hptr⟩, hPers1, hMem1, hAl1, hMax1⟩ :=
      addLoop_spec (toAddOf s desired) st.backends st.beAlloc st.lbmap [] bes1 alloc1 lbm1
        added hadd (toAddOf_nodup s desired hDes) hLoop
    rw [List.nil_append] at hacc
    subst hacc
    rcases hrem : removeBackendsLoop bes1 alloc1 lbm1 (toRemoveOf s desired) with
      ⟨bes2, alloc2, lbm2⟩
    rw [hrem] at hres
    have hNr := toRemove_snds_nodup s desired hsN
    have hptrR : ∀ p ∈ toRemoveOf s desired, ∃ b ∈ bes1, b.id = p.1 ∧ b.addr = p.2 := by
      intro p hp
      have hpb : p ∈ s0.backends := by
        rw [hbk]
        exact ((mem_toRemoveOf s desired p).mp hp).1
      obtain ⟨b, hb, hbi, hba⟩ := hAttach s0 hs0mem p hpb
      obtain ⟨b2, hb2, hbi2, hba2⟩ := hPers1 b hb
      exact ⟨b2, hb2, by rw [hbi2, hbi], by rw [hba2, hba]⟩
    obtain ⟨hL2, hSvc2, hRem, hKeep2, hMem2, hSurv2⟩ :=
      removeLoop_spec (toRemoveOf s desired) bes1 alloc1 lbm1 bes2 alloc2 lbm2 hrem hNr
        hptrR hL1
    dsimp only at hres
    cases hres
    have hrepl : replaceSvc st.services s.id { s with backends := keptOf s desired ++ added } =
        l1 ++ ({ s with backends := keptOf s desired ++ added }) :: l2 := by
      rw [hsvc]
      exact replaceSvc_mid l1 l2 s0 _ s.id hl1id hid
    have hs2addrs : svcAddrs { s with backends := keptOf s desired ++ added } =
        (keptOf s desired).map Prod.snd ++ toAddOf s desired := by
      unfold svcAddrs
      rw [List.map_append, hmap]
    have hs2mem : ∀ a, a ∈ svcAddrs { s with backends := keptOf s desired ++ added } ↔
        a ∈ desired := by
      intro a
      rw [hs2addrs, List.mem_append, mem_kept_snds, mem_toAddOf]
      constructor
      · rintro (⟨_, h⟩ | ⟨h, _⟩) <;> exact h
      · intro h
        by_cases ho : a ∈ svcAddrs s
        · exact Or.inl ⟨ho, h⟩
        · exact Or.inr ⟨h, ho⟩
    have htransport : ∀ b ∈ st.backends, (b.addr ∈ desired ∨
        ∃ x ∈ st.services, x ≠ s0 ∧ b.addr ∈ svcAddrs x) →
        ∃ b2 ∈ bes2, b2.id = b.id ∧ b2.addr = b.addr := by
      intro b hb hcase
      obtain ⟨b1, hb1, hbi1, hba1⟩ := hPers1 b hb
      rcases hcase with hdes | ⟨x, hx, hxne, hxa⟩
      · refine ⟨b1, hMem2 b1 hb1 ?_, hbi1, hba1⟩
        rw [hba1]
        intro hmem
        exact ((mem_toRemove_snds s desired b.addr).mp hmem).2 hdes
      · by_cases hRmem : b1.addr ∈ (toRemoveOf s desired).map Prod.snd
        · have h2 : 2 ≤ b1.refCount := by
            have hv : b1.refCount = refOf bes1 b1.addr :=
              (refOf_of_mem bes1 b1 hL1.addrsN hb1).symm
            have hge : refOf st.backends b1.addr ≤ refOf bes1 b1.addr := by
              rw [hRef1 b1.addr]
              omega
            have h2s : 2 ≤ svcRefs st.services b1.addr := by
              apply svcRefs_two_le st.services x s0 b1.addr hx hs0mem hxne
              · rw [hba1]
                exact hxa
              · rw [haddr_eq]
                exact ((mem_toRemove_snds s desired b1.addr).mp hRmem).1
            rw [hv]
            rw [hRefs b1.addr] at hge
            omega
          obtain ⟨b2, hb2, hbi2, hba2⟩ := hSurv2 b1 hb1 h2
          exact ⟨b2, hb2, by rw [hbi2, hbi1], by rw [hba2, hba1]⟩
        · exact ⟨b1, hMem2 b1 hb1 hRmem, hbi1, hba1⟩
    refine ⟨added, rfl, rfl, hmap, by rw [hrepl], rfl, ?_⟩
    refine ⟨?_, ?_, hL2.idsN, hL2.addrsN, ?_, hL2.pos, hL2.sync, ?_, ?_, hL2.idsAl, ?_, ?_⟩
    · show ((replaceSvc st.services s.id _).map Svc.id).Nodup
      rw [hrepl, List.map_append, List.map_cons]
      have := hsvc ▸ hIds
      rw [List.map_append, List.map_cons] at this
      have hsid : ({ s with backends := keptOf s desired ++ added } : Svc).id = s0.id := hid.symm
      rw [hsid]
      exact this
    · show ((replaceSvc st.services s.id _).map Svc.frontend).Nodup
      rw [hrepl, List.map_append, List.map_cons]
      have := hsvc ▸ hFes
      rw [List.map_append, List.map_cons] at this
      have hsfe : ({ s with backends := keptOf s desired ++ added } : Svc).frontend =
          s0.frontend := hfe.symm
      rw [hsfe]
      exact this
    · intro a
      show refOf bes2 a = svcRefs (replaceSvc st.services s.id _) a
      rw [hrepl, svcRefs_append, svcRefs_cons]
      have hsvcR : svcRefs st.services a =
          svcRefs l1 a + (svcRefs l2 a + (if a ∈ svcAddrs s then 1 else 0)) := by
        rw [hsvc, svcRefs_append, svcRefs_cons, haddr_eq]
      rw [if_congr (hs2mem a) rfl rfl]
      by_cases hd : a ∈ desired
      · rw [if_pos hd]
        have hnR : a ∉ (toRemoveOf s desired).map Prod.snd := by
          rw [mem_toRemove_snds]
          exact fun hc => hc.2 hd
        have h1 : refOf bes2 a = refOf bes1 a := hKeep2 a hnR
        by_cases ho : a ∈ svcAddrs s
        · have h2 : refOf bes1 a = refOf st.backends a := by
            rw [hRef1 a, if_neg (fun hc => ((mem_toAddOf s desired a).mp hc).2 ho)]
            omega
          rw [if_pos ho] at hsvcR
          rw [hRefs a] at h2
          omega
        · have h2 : refOf bes1 a = refOf st.backends a + 1 := by
            rw [hRef1 a, if_pos ((mem_toAddOf s desired a).mpr ⟨hd, ho⟩)]
          rw [if_neg ho] at hsvcR
          rw [hRefs a] at h2
          omega
      · rw [if_neg hd]
        have hnA : a ∉ toAddOf s desired := fun hc => hd ((mem_toAddOf s desired a).mp hc).1
        by_cases ho : a ∈ svcAddrs s
        · have hR : a ∈ (toRemoveOf s desired).map Prod.snd :=
            (mem_toRemove_snds s desired a).mpr ⟨ho, hd⟩
          have h1 : refOf bes2 a + 1 = refOf bes1 a := hRem a hR
          have h2 : refOf bes1 a = refOf st.backends a := by
            rw [hRef1 a, if_neg hnA]
            omega
          rw [if_pos ho] at hsvcR
          rw [hRefs a] at h2
          omega
        · have h1 : refOf bes2 a = refOf bes1 a := by
            apply hKeep2
            rw [mem_toRemove_snds]
            exact fun hc => ho hc.1
          have h2 : refOf bes1 a = refOf st.backends a := by
            rw [hRef1 a, if_neg hnA]
            omega
          rw [if_neg ho] at hsvcR
          rw [hRefs a] at h2
          omega
    · have hkeys : ∀ q ∈ l1.map svcEntry, q.1 ≠ s.id := by
        intro q hq
        obtain ⟨y, hy, rfl⟩ := List.mem_map.mp hq
        exact hl1id y hy
      have hentry : svcEntry { s with backends := keptOf s desired ++ added } =
          (s.id, List.map Prod.fst (keptOf s desired) ++ List.map Prod.fst added) := by
        unfold svcEntry
        rw [List.map_append]
      show alistUpsert lbm2.serviceBackendsByID s.id _ = List.map svcEntry (replaceSvc _ _ _)
      rw [hSvc2, hSvc1, hrepl, List.map_append svcEntry l1, List.map_cons, hentry,
        List.map_append Prod.fst (keptOf s desired)]
      rcases hLbSvc with hlb | ⟨hlb, hl2nil⟩
      · rw [hlb]
        have hentry0 : svcEntry s0 = (s.id, s0.backends.map Prod.fst) := by
          unfold svcEntry
          rw [hid]
        rw [hentry0,
          alistUpsert_replace (l1.map svcEntry) (l2.map svcEntry) s.id _ _ hkeys]
      · subst hl2nil
        rw [hlb, alistUpsert_append (l1.map svcEntry) s.id _ hkeys]
        simp
    · intro x hx
      show x.id ∈ st.svcAlloc.allocated
      rw [hrepl] at hx
      rcases List.mem_append.mp hx with hx | hx
      · exact hSvcAl x (by rw [hsvc]; exact List.mem_append_left _ hx)
      · rcases List.mem_cons.mp hx with rfl | hx
        · show ({ s with backends := keptOf s desired ++ added } : Svc).id ∈ _
          have : ({ s with backends := keptOf s desired ++ added } : Svc).id = s0.id := hid.symm
          rw [this]
          exact hSvcAl s0 hs0mem
        · exact hSvcAl x (by rw [hsvc]; exact List.mem_append_right _ (List.mem_cons_of_mem _ hx))
    · intro x hx p hp
      rw [hrepl] at hx
      rcases List.mem_append.mp hx with hxl | hxr
      · obtain ⟨b, hb, hbi, hba⟩ :=
          hAttach x (by rw [hsvc]; exact List.mem_append_left _ hxl) p hp
        have hxne : x ≠ s0 := by
          intro he
          exact hmid.1 x hxl (by rw [he])
        obtain ⟨b2, hb2, hbi2, hba2⟩ := htransport b hb
          (Or.inr ⟨x, (by rw [hsvc]; exact List.mem_append_left _ hxl), hxne,
            (by rw [hba]; exact List.mem_map_of_mem Prod.snd hp)⟩)
        exact ⟨b2, hb2, by rw [hbi2, hbi], by rw [hba2, hba]⟩
      · rcases List.mem_cons.mp hxr with rfl | hxr
        · rcases List.mem_append.mp hp with hpk | hpp
          · have hk := (mem_keptOf s desired p).mp hpk
            have hpb : p ∈ s0.backends := by
              rw [hbk]
              exact hk.1
            obtain ⟨b, hb, hbi, hba⟩ := hAttach s0 hs0mem p hpb
            obtain ⟨b2, hb2, hbi2, hba2⟩ := htransport b hb
              (Or.inl (by rw [hba]; exact hk.2))
            exact ⟨b2, hb2, by rw [hbi2, hbi], by rw [hba2, hba]⟩
          · obtain ⟨b1, hb1, hbi1, hba1⟩ := hptr p hpp
            have hmemA : p.2 ∈ toAddOf s desired := by
              rw [← hmap]
              exact List.mem_map_of_mem Prod.snd hpp
            have hdes : p.2 ∈ desired := ((mem_toAddOf s desired p.2).mp hmemA).1
            refine ⟨b1, hMem2 b1 hb1 ?_, hbi1, hba1⟩
            rw [hba1]
            intro hmem
            exact ((mem_toRemove_snds s desired p.2).mp hmem).2 hdes
        · obtain ⟨b, hb, hbi, hba⟩ :=
            hAttach x (by rw [hsvc]; exact List.mem_append_right _ (List.mem_cons_of_mem _ hxr))
              p hp
          have hxne : x ≠ s0 := by
            intro he
            exact hmid.2 x hxr (by rw [he])
          obtain ⟨b2, hb2, hbi2, hba2⟩ := htransport b hb
            (Or.inr ⟨x,
              (by rw [hsvc]; exact List.mem_append_right _ (List.mem_cons_of_mem _ hxr)), hxne,
              (by rw [hba]; exact List.mem_map_of_mem Prod.snd hp)⟩)
          exact ⟨b2, hb2, by rw [hbi2, hbi], by rw [hba2, hba]⟩
    · intro x hx
      rw [hrepl] at hx
      rcases List.mem_append.mp hx with hxl | hxr
      · exact hAttachN x (by rw [hsvc]; exact List.mem_append_left _ hxl)
      · rcases List.mem_cons.mp hxr with rfl | hxr
        · rw [hs2addrs]
          refine List.Nodup.append (kept_snds_nodup s desired hsN)
            (toAddOf_nodup s desired hDes) ?_
          intro a ha1 ha2
          exact ((mem_toAddOf s desired a).mp ha2).2 ((mem_kept_snds s desired a).mp ha1).1
        · exact hAttachN x (by rw [hsvc]; exact List.mem_append_right _ (List.mem_cons_of_mem _ hxr))

end SvcMgr

namespace SvcMgr

theorem upsert_new_spec (st : ServiceState) (fe : L3n4Addr) (d : List L3n4Addr) (t : SVCType)
    (out : Bool × Nat × ServiceState)
    (hInv : Inv st) (hnone : findService st fe = none)
    (hres : upsertService st fe d t = .ok out) :
    ∃ sid added,
      out.1 = true ∧ out.2.1 = sid ∧
      (∀ x ∈ st.services, x.id ≠ sid) ∧
      added.map Prod.snd = dedupAddrs d ∧
      out.2.2.services = st.services ++
        [{ id := sid, frontend := fe, svcType := t, backends := added }] ∧
      out.2.2.svcAlloc.allocated = sid :: st.svcAlloc.allocated ∧
      Inv out.2.2 := by
  unfold upsertService at hres
  rw [hnone] at hres
  cases hal : st.svcAlloc.allocate with
  | error e => rw [hal] at hres; cases hres
  | ok r =>
    obtain ⟨sid, alloc1⟩ := r
    rw [hal] at hres
    dsimp only at hres
    obtain ⟨hfresh, halloc1⟩ := allocate_ok st.svcAlloc sid alloc1 hal
    have hidne : ∀ x ∈ st.services, x.id ≠ sid := by
      intro x hx he
      exact hfresh (he ▸ hInv.svcAl x hx)
    have hfene : ∀ x ∈ st.services, x.frontend ≠ fe := by
      intro x hx
      have := List.find?_eq_none.mp hnone x hx
      simpa using this
    obtain ⟨added, ho1, ho2, hmap, hserv, hsvcal, hInv2⟩ :=
      processBackends_spec
        { st with services := st.services ++ [⟨sid, fe, t, []⟩], svcAlloc := alloc1 }
        (⟨sid, fe, t, []⟩ : Svc) (⟨sid, fe, t, []⟩ : Svc) (dedupAddrs d) true st.services []
        out hres rfl rfl rfl rfl
        (by
          show ((st.services ++ [(⟨sid, fe, t, []⟩ : Svc)]).map Svc.id).Nodup
          rw [List.map_append]
          refine nodup_append_sing _ _ hInv.svcIds ?_
          intro hmem
          obtain ⟨x, hx, he⟩ := List.mem_map.mp hmem
          exact hidne x hx he)
        (by
          show ((st.services ++ [(⟨sid, fe, t, []⟩ : Svc)]).map Svc.frontend).Nodup
          rw [List.map_append]
          refine nodup_append_sing _ _ hInv.svcFes ?_
          intro hmem
          obtain ⟨x, hx, he⟩ := List.mem_map.mp hmem
          exact hfene x hx he)
        ⟨hInv.beIds, hInv.beAddrs, hInv.beAl, hInv.lbBe, hInv.pos⟩
        (by
          intro a
          show refOf st.backends a = svcRefs (st.services ++ [(⟨sid, fe, t, []⟩ : Svc)]) a
          rw [svcRefs_append, hInv.refs a]
          have : svcRefs [⟨sid, fe, t, []⟩] a = 0 := by
            rw [show ([⟨sid, fe, t, []⟩] : List Svc) = ⟨sid, fe, t, []⟩ :: [] from rfl,
              svcRefs_cons, svcRefs_nil]
            simp [svcAddrs]
          rw [this]
          omega)
        (Or.inr ⟨hInv.lbSvc, rfl⟩)
        (by
          intro x hx
          rcases List.mem_append.mp hx with hx | hx
          · show x.id ∈ alloc1.allocated
            rw [halloc1]
            exact List.mem_cons_of_mem _ (hInv.svcAl x hx)
          · rw [List.mem_singleton] at hx
            subst hx
            show sid ∈ alloc1.allocated
            rw [halloc1]
            exact List.mem_cons_self _ _)
        (by
          intro x hx p hp
          rcases List.mem_append.mp hx with hx | hx
          · exact hInv.attach x hx p hp
          · rw [List.mem_singleton] at hx
            subst hx
            simp at hp)
        (by
          intro x hx
          rcases List.mem_append.mp hx with hx | hx
          · exact hInv.attachN x hx
          · rw [List.mem_singleton] at hx
            subst hx
            simp [svcAddrs])
        (nodup_dedupAddrs d)
    have htoadd : toAddOf (⟨sid, fe, t, []⟩ : Svc) (dedupAddrs d) = dedupAddrs d := by
      unfold toAddOf
      refine List.filter_eq_self.mpr (fun a _ => ?_)
      simp [svcAddrs]
    have hkept : keptOf (⟨sid, fe, t, []⟩ : Svc) (dedupAddrs d) = [] := rfl
    refine ⟨sid, added, ho1, ho2, hidne, by rw [hmap, htoadd], ?_, by rw [hsvcal, halloc1], hInv2⟩
    rw [hserv, hkept, List.nil_append]

theorem upsert_existing_spec (st : ServiceState) (fe : L3n4Addr) (d : List L3n4Addr)
    (t : SVCType) (s0 : Svc) (out : Bool × Nat × ServiceState)
    (hInv : Inv st) (hfind : findService st fe = some s0)
    (hres : upsertService st fe d t = .ok out) :
    ∃ l1 l2 added,
      st.services = l1 ++ s0 :: l2 ∧
      (∀ y ∈ l1, y.frontend ≠ fe) ∧
      s0.frontend = fe ∧
      out.1 = false ∧ out.2.1 = s0.id ∧
      added.map Prod.snd = toAddOf s0 (dedupAddrs d) ∧
      out.2.2.services = l1 ++
        ({ s0 with svcType := t, backends := keptOf s0 (dedupAddrs d) ++ added }) :: l2 ∧
      out.2.2.svcAlloc = st.svcAlloc ∧
      Inv out.2.2 := by
  obtain ⟨l1, l2, hsvc, hl1⟩ := find_decomp _ st.services s0 hfind
  have hl1fe : ∀ y ∈ l1, y.frontend ≠ fe := by
    intro y hy
    have := hl1 y hy
    simpa using this
  have hs0fe : s0.frontend = fe := by simpa using List.find?_some hfind
  unfold upsertService at hres
  rw [hfind] at hres
  dsimp only at hres
  obtain ⟨added, ho1, ho2, hmap, hserv, hsvcal, hInv2⟩ :=
    processBackends_spec st { s0 with svcType := t } s0 (dedupAddrs d) false l1 l2 out hres
      hsvc rfl rfl rfl hInv.svcIds hInv.svcFes
      ⟨hInv.beIds, hInv.beAddrs, hInv.beAl, hInv.lbBe, hInv.pos⟩
      hInv.refs
      (Or.inl (by rw [hInv.lbSvc, hsvc, List.map_append, List.map_cons]))
      hInv.svcAl hInv.attach hInv.attachN (nodup_dedupAddrs d)
  exact ⟨l1, l2, added, hsvc, hl1fe, hs0fe, ho1, ho2, hmap, hserv, hsvcal, hInv2⟩

theorem upsert_preserves (st : ServiceState) (fe : L3n4Addr) (d : List L3n4Addr) (t : SVCType)
    (out : Bool × Nat × ServiceState) (hInv : Inv st)
    (hres : upsertService st fe d t = .ok out) : Inv out.2.2 := by
  cases hf : findService st fe with
  | none =>
    obtain ⟨_, _, _, _, _, _, _, _, hInv2⟩ := upsert_new_spec st fe d t out hInv hf hres
    exact hInv2
  | some s0 =>
    obtain ⟨_, _, _, _, _, _, _, _, _, _, _, hInv2⟩ :=
      upsert_existing_spec st fe d t s0 out hInv hf hres
    exact hInv2

end SvcMgr

namespace SvcMgr

theorem delete_unknown (st : ServiceState) (sid : Nat)
    (h : ∀ s ∈ st.services, s.id ≠ sid) :
    deleteServiceByID st sid = (false, st) := by
  unfold deleteServiceByID
  rw [List.find?_eq_none.mpr (fun s hs => by simpa using h s hs)]

theorem delete_preserves (st : ServiceState) (sid : Nat) (hInv : Inv st) :
    Inv (deleteServiceByID st sid).2 := by
  unfold deleteServiceByID
  cases hf : st.services.find? (fun s => decide (s.id = sid)) with
  | none => exact hInv
  | some s0 =>
    obtain ⟨l1, l2, hsvc, hl1⟩ := find_decomp _ st.services s0 hf
    have hl1id : ∀ y ∈ l1, y.id ≠ sid := by
      intro y hy
      have := hl1 y hy
      simpa using this
    have hs0id : s0.id = sid := by simpa using List.find?_some hf
    have hmid := nodup_map_mid Svc.id l1 l2 s0 (hsvc ▸ hInv.svcIds)
    have hl2id : ∀ y ∈ l2, y.id ≠ sid := fun y hy => hs0id ▸ hmid.2 y hy
    have hs0mem : s0 ∈ st.services := by
      rw [hsvc]
      exact List.mem_append_right _ (List.mem_cons_self _ _)
    rcases hrem : removeBackendsLoop st.backends st.beAlloc st.lbmap s0.backends with
      ⟨bes2, beAlloc2, lbm2⟩
    obtain ⟨hL2, hSvc2, hRem, hKeep2, hMem2, hSurv2⟩ :=
      removeLoop_spec s0.backends st.backends st.beAlloc st.lbmap bes2 beAlloc2 lbm2 hrem
        (hInv.attachN s0 hs0mem) (hInv.attach s0 hs0mem)
        ⟨hInv.beIds, hInv.beAddrs, hInv.beAl, hInv.lbBe, hInv.pos⟩
    dsimp only
    rw [hrem]
    dsimp only
    have hfilter : st.services.filter (fun x => decide (x.id ≠ sid)) = l1 ++ l2 := by
      rw [hsvc]
      exact filter_key_mid Svc.id l1 l2 s0 sid hl1id hl2id hs0id
    have hsnds : List.map Prod.snd s0.backends = svcAddrs s0 := rfl
    refine ⟨?_, ?_, hL2.idsN, hL2.addrsN, ?_, hL2.pos, hL2.sync, ?_, ?_, hL2.idsAl, ?_, ?_⟩
    · show ((st.services.filter _).map Svc.id).Nodup
      rw [hfilter]
      have h0 := hsvc ▸ hInv.svcIds
      rw [List.map_append, List.map_cons, List.nodup_middle, List.nodup_cons,
        ← List.map_append] at h0
      exact h0.2
    · show ((st.services.filter _).map Svc.frontend).Nodup
      rw [hfilter]
      have h0 := hsvc ▸ hInv.svcFes
      rw [List.map_append, List.map_cons, List.nodup_middle, List.nodup_cons,
        ← List.map_append] at h0
      exact h0.2
    · intro a
      show refOf bes2 a = svcRefs (st.services.filter _) a
      rw [hfilter, svcRefs_append]
      have hbase : svcRefs st.services a =
          svcRefs l1 a + (svcRefs l2 a + (if a ∈ svcAddrs s0 then 1 else 0)) := by
        rw [hsvc, svcRefs_append, svcRefs_cons]
      by_cases ho : a ∈ svcAddrs s0
      · have h1 := hRem a (hsnds ▸ ho)
        rw [hInv.refs a] at h1
        rw [if_pos ho] at hbase
        omega
      · have h1 := hKeep2 a (fun hm => ho (hsnds ▸ hm))
        rw [hInv.refs a] at h1
        rw [if_neg ho] at hbase
        omega
    · show lbm2.serviceBackendsByID.filter _ = (st.services.filter _).map svcEntry
      rw [hfilter, hSvc2, hInv.lbSvc, hsvc, List.map_append, List.map_cons, List.map_append]
      refine filter_key_mid Prod.fst (l1.map svcEntry) (l2.map svcEntry) (svcEntry s0) sid
        ?_ ?_ hs0id
      · intro q hq
        obtain ⟨y, hy, rfl⟩ := List.mem_map.mp hq
        exact hl1id y hy
      · intro q hq
        obtain ⟨y, hy, rfl⟩ := List.mem_map.mp hq
        exact hl2id y hy
    · intro x hx
      show x.id ∈ (st.svcAlloc.release sid).allocated
      rw [hfilter] at hx
      have hxid : x.id ≠ sid := by
        rcases List.mem_append.mp hx with hx | hx
        · exact hl1id x hx
        · exact hl2id x hx
      have hxmem : x ∈ st.services := by
        rw [hsvc]
        rcases List.mem_append.mp hx with hx | hx
        · exact List.mem_append_left _ hx
        · exact List.mem_append_right _ (List.mem_cons_of_mem _ hx)
      exact (release_mem_iff st.svcAlloc sid x.id hxid).mpr (hInv.svcAl x hxmem)
    · intro x hx p hp
      rw [hfilter] at hx
      have hxmem : x ∈ st.services := by
        rw [hsvc]
        rcases List.mem_append.mp hx with hx | hx
        · exact List.mem_append_left _ hx
        · exact List.mem_append_right _ (List.mem_cons_of_mem _ hx)
      have hxne : x ≠ s0 := by
        intro he
        rcases List.mem_append.mp hx with hx | hx
        · exact hmid.1 x hx (by rw [he])
        · exact hmid.2 x hx (by rw [he])
      obtain ⟨b, hb, hbi, hba⟩ := hInv.attach x hxmem p hp
      by_cases hrm : b.addr ∈ List.map Prod.snd s0.backends
      · have h2 : 2 ≤ b.refCount := by
          have hv : b.refCount = refOf st.backends b.addr :=
            (refOf_of_mem st.backends b hInv.beAddrs hb).symm
          have h2s : 2 ≤ svcRefs st.services b.addr := by
            apply svcRefs_two_le st.services x s0 b.addr hxmem hs0mem hxne
            · rw [hba]
              exact List.mem_map_of_mem Prod.snd hp
            · exact hsnds ▸ hrm
          rw [hv, hInv.refs b.addr]
          exact h2s
        obtain ⟨b2, hb2, hbi2, hba2⟩ := hSurv2 b hb h2
        exact ⟨b2, hb2, by rw [hbi2, hbi], by rw [hba2, hba]⟩
      · exact ⟨b, hMem2 b hb hrm, hbi, hba⟩
    · intro x hx
      rw [hfilter] at hx
      have hxmem : x ∈ st.services := by
        rw [hsvc]
        rcases List.mem_append.mp hx with hx | hx
        · exact List.mem_append_left _ hx
        · exact List.mem_append_right _ (List.mem_cons_of_mem _ hx)
      exact hInv.attachN x hxmem

theorem inv_init : Inv initState := by
  refine ⟨?_, ?_, ?_, ?_, fun a => rfl, ?_, rfl, rfl, ?_, ?_, ?_, ?_⟩ <;>
    simp [initState]

theorem inv_applyOp (st : ServiceState) (op : Op) (hInv : Inv st) : Inv (applyOp st op) := by
  cases op with
  | upsert fe bes t =>
    have heq : applyOp st (.upsert fe bes t) =
        (match upsertService st fe bes t with
          | .ok r => r.2.2
          | .error _ => st) := rfl
    rw [heq]
    cases hres : upsertService st fe bes t with
    | ok r => exact upsert_preserves st fe bes t r hInv hres
    | error e => exact hInv
  | delete sid => exact delete_preserves st sid hInv

theorem inv_foldl (ops : List Op) :
    ∀ st, Inv st → Inv (ops.foldl applyOp st) := by
  induction ops with
  | nil => exact fun st h => h
  | cons op rest ih =>
    intro st h
    exact ih (applyOp st op) (inv_applyOp st op h)

theorem inv_runOps (ops : List Op) : Inv (runOps ops) :=
  inv_foldl ops initState inv_init

end SvcMgr

namespace SvcMgr

theorem countP_eq_one_of_nodup (bes : List Backend) (b : Backend) (a : L3n4Addr)
    (hn : (bes.map Backend.addr).Nodup) (hb : b ∈ bes) (hba : b.addr = a) :
    bes.countP (fun x => decide (x.addr = a)) = 1 := by
  induction bes with
  | nil => simp at hb
  | cons x t ih =>
    rw [List.map_cons, List.nodup_cons] at hn
    rw [List.countP_cons]
    rcases List.mem_cons.mp hb with rfl | hb2
    · have h0 : t.countP (fun y => decide (y.addr = a)) = 0 := by
        rw [List.countP_eq_zero]
        intro y hy
        simp only [decide_eq_true_eq]
        intro he
        exact hn.1 (by rw [hba, ← he]; exact List.mem_map_of_mem Backend.addr hy)
      rw [h0, if_pos (by simpa using hba)]
    · have hxa : x.addr ≠ a := by
        intro he
        refine hn.1 ?_
        rw [he, ← hba]
        exact List.mem_map_of_mem Backend.addr hb2
      rw [ih hn.2 hb2, if_neg (by simpa using hxa)]

/-- C1: in every state reached by a finite sequence of upserts and deletes
from the empty registry, each Backend's reference count equals the number
of currently-Active services whose backend set contains its address, the
count is positive, the record is mirrored in the forwarding table, and an
address has a forwarding-table backend record iff some Active service
lists it (so the record is deleted exactly when the count reaches zero). -/
theorem c1_refcount (ops : List Op) :
    (∀ b ∈ (runOps ops).backends,
      b.refCount = svcRefs (runOps ops).services b.addr ∧ 0 < b.refCount ∧
      (b.id, b.addr) ∈ (runOps ops).lbmap.backendByID) ∧
    (∀ a : L3n4Addr,
      (∃ q ∈ (runOps ops).lbmap.backendByID, q.2 = a) ↔
        0 < svcRefs (runOps ops).services a) := by
  have hI := inv_runOps ops
  constructor
  · intro b hb
    refine ⟨?_, hI.pos b hb, ?_⟩
    · rw [← hI.refs b.addr, refOf_of_mem _ b hI.beAddrs hb]
    · rw [hI.lbBe]
      exact List.mem_map_of_mem _ hb
  · intro a
    rw [← hI.refs a]
    constructor
    · rintro ⟨q, hq, hqa⟩
      rw [hI.lbBe] at hq
      obtain ⟨b, hb, rfl⟩ := List.mem_map.mp hq
      refine (refOf_pos_iff _ a hI.pos).mpr ⟨b, hb, hqa⟩
    · intro hpos
      obtain ⟨b, hb, hba⟩ := (refOf_pos_iff _ a hI.pos).mp hpos
      refine ⟨(b.id, b.addr), ?_, hba⟩
      rw [hI.lbBe]
      exact List.mem_map_of_mem _ hb

theorem c1_refcount_witness :
    (demoBe.refCount = svcRefs demoSt.services demoBe.addr ∧ 0 < demoBe.refCount ∧
      (demoBe.id, demoBe.addr) ∈ demoSt.lbmap.backendByID) ∧
    ((∃ q ∈ demoSt.lbmap.backendByID, q.2 = baA) ↔ 0 < svcRefs demoSt.services baA) :=
  ⟨(c1_refcount demoOps).1 demoBe (by decide), (c1_refcount demoOps).2 baA⟩

/-- C5: in every reachable state, services with distinct frontends have
distinct Service IDs, and there is at most one live Service per distinct
frontend address. -/
theorem c5_unique_ids (ops : List Op) :
    (∀ s1 ∈ (runOps ops).services, ∀ s2 ∈ (runOps ops).services,
      s1.frontend ≠ s2.frontend → s1.id ≠ s2.id) ∧
    (∀ s1 ∈ (runOps ops).services, ∀ s2 ∈ (runOps ops).services,
      s1.frontend = s2.frontend → s1 = s2) := by
  have hI := inv_runOps ops
  constructor
  · intro s1 h1 s2 h2 hfe hid
    exact hfe (by rw [List.inj_on_of_nodup_map hI.svcIds h1 h2 hid])
  · intro s1 h1 s2 h2 hfe
    exact List.inj_on_of_nodup_map hI.svcFes h1 h2 hfe

theorem c5_unique_ids_witness : demoSvcX.id ≠ demoSvcY.id :=
  (c5_unique_ids demo2Ops).1 demoSvcX (by decide) demoSvcY (by decide) (by decide)

/-- C2 (as stated) is falsified by three services sharing one backend
address: two distinct Active services list baA yet the unique record for
baA has reference count 3, not 2. -/
theorem c2_sharing_counterexample :
    ∃ s1 ∈ demoShareSt.services, ∃ s2 ∈ demoShareSt.services, s1 ≠ s2 ∧
      baA ∈ svcAddrs s1 ∧ baA ∈ svcAddrs s2 ∧
      ∀ b ∈ demoShareSt.backends, b.addr = baA → b.refCount ≠ 2 := by
  decide

/-- C2 (amended): for every pair of distinct Active services both listing
an address, the registry holds exactly one Backend record for it, both
services are attached to that record's ID, and its reference count equals
the number of Active services listing the address - hence at least 2 (it
is 2 exactly when those two are the only listers, not two records). -/
theorem c2_sharing_amended (ops : List Op) (s1 s2 : Svc) (a : L3n4Addr)
    (h1 : s1 ∈ (runOps ops).services) (h2 : s2 ∈ (runOps ops).services)
    (hne : s1 ≠ s2) (ha1 : a ∈ svcAddrs s1) (ha2 : a ∈ svcAddrs s2) :
    (runOps ops).backends.countP (fun b => decide (b.addr = a)) = 1 ∧
    ∃ b ∈ (runOps ops).backends, b.addr = a ∧
      b.refCount = svcRefs (runOps ops).services a ∧ 2 ≤ b.refCount ∧
      (∀ p1 ∈ s1.backends, p1.2 = a → p1.1 = b.id) ∧
      (∀ p2 ∈ s2.backends, p2.2 = a → p2.1 = b.id) := by
  have hI := inv_runOps ops
  obtain ⟨q1, hq1, hq1a⟩ := List.mem_map.mp ha1
  obtain ⟨b, hb, hbi, hba⟩ := hI.attach s1 h1 q1 hq1
  have hbaa : b.addr = a := by rw [hba, hq1a]
  have hcount : b.refCount = svcRefs (runOps ops).services a := by
    rw [← hI.refs a, ← hbaa, refOf_of_mem _ b hI.beAddrs hb]
  have hattach : ∀ x ∈ (runOps ops).services, ∀ p ∈ x.backends, p.2 = a → p.1 = b.id := by
    intro x hx p hp hpa
    obtain ⟨b2, hb2, hbi2, hba2⟩ := hI.attach x hx p hp
    have : b2 = b := by
      refine List.inj_on_of_nodup_map hI.beAddrs hb2 hb ?_
      rw [hba2, hpa, hbaa]
    rw [← hbi2, this]
  refine ⟨countP_eq_one_of_nodup _ b a hI.beAddrs hb hbaa, b, hb, hbaa, hcount, ?_,
    hattach s1 h1, hattach s2 h2⟩
  rw [hcount]
  exact svcRefs_two_le _ s1 s2 a h1 h2 hne ha1 ha2

theorem c2_sharing_amended_witness :
    demo2Ops.length = 2 ∧
    ((runOps demo2Ops).backends.countP (fun b => decide (b.addr = baA)) = 1 ∧
    ∃ b ∈ (runOps demo2Ops).backends, b.addr = baA ∧
      b.refCount = svcRefs (runOps demo2Ops).services baA ∧ 2 ≤ b.refCount ∧
      (∀ p1 ∈ demoSvcX.backends, p1.2 = baA → p1.1 = b.id) ∧
      (∀ p2 ∈ demoSvcY.backends, p2.2 = baA → p2.1 = b.id)) :=
  ⟨rfl, c2_sharing_amended demo2Ops demoSvcX demoSvcY baA (by decide) (by decide)
    (by decide) (by decide) (by decide)⟩

/-- C7: DeleteServiceByID with an ID that no live service holds (never
issued, or already deleted and not reissued) returns found = false and
leaves the whole state - registry, both allocators and forwarding table -
unchanged; the delete path cannot fail, matching the nil error. -/
theorem c7_delete_unknown (st : ServiceState) (sid : Nat)
    (h : ∀ s ∈ st.services, s.id ≠ sid) :
    deleteServiceByID st sid = (false, st) :=
  delete_unknown st sid h

theorem c7_delete_unknown_witness : deleteServiceByID demoSt 7 = (false, demoSt) :=
  c7_delete_unknown demoSt 7 (by decide)

end SvcMgr

namespace SvcMgr

/-- C4: upserting an existing service with an empty (nil) desired backend
set succeeds, keeps the service record Active with an empty backend list,
and still issues the full-replace write: the forwarding table keeps a
record for the service ID holding the empty list rather than deleting it;
the Service ID stays allocated. -/
theorem c4_drain_keeps_record (st : ServiceState) (fe : L3n4Addr) (t : SVCType) (s0 : Svc)
    (hInv : Inv st) (hfind : findService st fe = some s0) :
    ∃ st2, upsertService st fe [] t = .ok (false, s0.id, st2) ∧
      findService st2 fe = some { s0 with svcType := t, backends := [] } ∧
      alistLookup st2.lbmap.serviceBackendsByID s0.id = some [] ∧
      s0.id ∈ st2.svcAlloc.allocated := by
  have hsucc : ∃ st2, upsertService st fe [] t = .ok (false, s0.id, st2) := by
    unfold upsertService
    rw [hfind]
    dsimp only
    unfold processBackends
    rcases hrem : removeBackendsLoop st.backends st.beAlloc st.lbmap
        (toRemoveOf { s0 with svcType := t } (dedupAddrs [])) with ⟨bes2, alloc2, lbm2⟩
    rw [show addBackendsLoop st.backends st.beAlloc st.lbmap
        (toAddOf { s0 with svcType := t } (dedupAddrs [])) [] =
        .ok (st.backends, st.beAlloc, st.lbmap, []) from rfl]
    dsimp only
    rw [hrem]
    exact ⟨_, rfl⟩
  obtain ⟨st2, hres⟩ := hsucc
  obtain ⟨l1, l2, added, hsvc, hl1fe, hs0fe, ho1, ho2, hmap, hserv, hsvcal, hInv2⟩ :=
    upsert_existing_spec st fe [] t s0 (false, s0.id, st2) hInv hfind hres
  dsimp only at ho1 ho2 hserv hsvcal hInv2
  have haddednil : added = [] := by
    refine List.map_eq_nil_iff.mp (hmap.trans ?_)
    rfl
  subst haddednil
  have hkept : keptOf s0 (dedupAddrs []) = [] := by
    unfold keptOf
    refine List.filter_eq_nil_iff.mpr (fun p hp => ?_)
    simp [show dedupAddrs [] = [] from rfl]
  rw [hkept] at hserv
  refine ⟨st2, hres, ?_, ?_, ?_⟩
  · unfold findService
    rw [hserv]
    rw [find_append_none _ _ _ (fun y hy => by simpa using hl1fe y hy)]
    rw [List.find?_cons_of_pos _ (by simpa using hs0fe)]
    rfl
  · rw [hInv2.lbSvc, hserv, List.map_append, List.map_cons]
    have hentry : svcEntry { s0 with svcType := t, backends := ([] ++ [] : List (Nat × L3n4Addr)) } = (s0.id, []) := rfl
    rw [hentry]
    refine alistLookup_mid _ _ _ _ (fun q hq => ?_)
    obtain ⟨y, hy, rfl⟩ := List.mem_map.mp hq
    exact (nodup_map_mid Svc.id l1 l2 s0 (hsvc ▸ hInv.svcIds)).1 y hy
  · rw [hsvcal]
    refine hInv.svcAl s0 ?_
    rw [hsvc]
    exact List.mem_append_right _ (List.mem_cons_self _ _)

theorem c4_drain_keeps_record_witness :
    ∃ st2, upsertService demoSt feA [] SVCType.nodePort = .ok (false, 1, st2) ∧
      findService st2 feA = some { id := 1, frontend := feA, svcType := .nodePort, backends := [] } ∧
      alistLookup st2.lbmap.serviceBackendsByID 1 = some [] ∧
      1 ∈ st2.svcAlloc.allocated :=
  c4_drain_keeps_record demoSt feA SVCType.nodePort
    { id := 1, frontend := feA, svcType := .nodePort, backends := [(1, baA), (2, baB)] }
    (inv_runOps demoOps) (by decide)

end SvcMgr

namespace SvcMgr

/-- C3: from any invariant-satisfying state in which the frontend is
unknown, a successful UpsertService returns created = true, and calling
it again with identical arguments returns created = false with the same
service ID and the identical state - in particular the number of backend
records and the service's backend-ID list are unchanged. -/
theorem c3_idempotent_reupsert (st : ServiceState) (fe : L3n4Addr) (d : List L3n4Addr)
    (t : SVCType) (c1r : Bool) (id1 : Nat) (st1 : ServiceState)
    (hInv : Inv st) (hnone : findService st fe = none)
    (h1 : upsertService st fe d t = .ok (c1r, id1, st1)) :
    c1r = true ∧ upsertService st1 fe d t = .ok (false, id1, st1) := by
  obtain ⟨sid, added, ho1, ho2, hidne, hmap, hserv, hsvcal, hInv1⟩ :=
    upsert_new_spec st fe d t (c1r, id1, st1) hInv hnone h1
  dsimp only at ho1 ho2 hserv hsvcal hInv1
  subst ho2
  refine ⟨ho1, ?_⟩
  have hsndeq : added.map Prod.snd = dedupAddrs d := hmap
  have hfind1 : findService st1 fe =
      some (⟨id1, fe, t, added⟩ : Svc) := by
    unfold findService
    rw [hserv]
    rw [find_append_none _ _ _ (fun y hy => by
      have := List.find?_eq_none.mp hnone y hy
      simpa using this)]
    rw [List.find?_cons_of_pos _ (by simp)]
  unfold upsertService
  rw [hfind1]
  dsimp only
  have htoadd : toAddOf (⟨id1, fe, t, added⟩ : Svc) (dedupAddrs d) = [] := by
    unfold toAddOf
    refine List.filter_eq_nil_iff.mpr (fun a ha => ?_)
    simp only [decide_eq_true_eq, not_not]
    show a ∈ added.map Prod.snd
    rw [hsndeq]
    exact ha
  have htorem : toRemoveOf (⟨id1, fe, t, added⟩ : Svc) (dedupAddrs d) = [] := by
    unfold toRemoveOf
    refine List.filter_eq_nil_iff.mpr (fun p hp => ?_)
    simp only [decide_eq_true_eq, not_not]
    rw [← hsndeq]
    exact List.mem_map_of_mem Prod.snd hp
  have hkept : keptOf (⟨id1, fe, t, added⟩ : Svc) (dedupAddrs d) = added := by
    unfold keptOf
    refine List.filter_eq_self.mpr (fun p hp => ?_)
    simp only [decide_eq_true_eq]
    rw [← hsndeq]
    exact List.mem_map_of_mem Prod.snd hp
  unfold processBackends
  rw [htoadd, htorem, hkept]
  rw [show addBackendsLoop st1.backends st1.beAlloc st1.lbmap [] [] =
    .ok (st1.backends, st1.beAlloc, st1.lbmap, []) from rfl]
  dsimp only
  rw [show removeBackendsLoop st1.backends st1.beAlloc st1.lbmap [] =
    (st1.backends, st1.beAlloc, st1.lbmap) from rfl]
  dsimp only
  rw [List.append_nil added]
  have hrepl : replaceSvc st1.services id1 (⟨id1, fe, t, added⟩ : Svc) = st1.services := by
    rw [hserv]
    exact replaceSvc_mid st.services [] (⟨id1, fe, t, added⟩ : Svc)
      (⟨id1, fe, t, added⟩ : Svc) id1 hidne rfl
  rw [hrepl]
  have hups : alistUpsert st1.lbmap.serviceBackendsByID id1 (added.map Prod.fst) =
      st1.lbmap.serviceBackendsByID := by
    rw [hInv1.lbSvc, hserv, List.map_append, List.map_cons]
    have hkeys : ∀ q ∈ st.services.map svcEntry, q.1 ≠ id1 := by
      intro q hq
      obtain ⟨y, hy, rfl⟩ := List.mem_map.mp hq
      exact hidne y hy
    exact alistUpsert_replace (st.services.map svcEntry) ([].map svcEntry) id1
      (added.map Prod.fst) (added.map Prod.fst) hkeys
  rw [hups]

theorem c3_idempotent_reupsert_witness :
    (true = true) ∧ upsertService demoSt feA [baA, baB] SVCType.nodePort =
      .ok (false, 1, demoSt) :=
  c3_idempotent_reupsert initState feA [baA, baB] SVCType.nodePort true 1 demoSt
    inv_init (by decide) (by rfl)

end SvcMgr
